import Mathlib

/-!
Shallow embedding of the nrs interactive script-runner core, translated from
the Rust sources:

* `src/package/types.rs` — scripts, glob exclude patterns;
* `src/history/storage.rs` — per-project run history, recency-frequency
  scoring, recent-usage sorting, LRU cleanup;
* `src/filter/fuzzy.rs` — fuzzy filtering (the external Skim matcher is kept
  abstract as a score function);
* `src/tui/app.rs` — the App state record, projection of `visible_indices`,
  grid navigation and run intents;
* `src/tui/input.rs` — mode-dispatched key handling.

Strings are modelled as lists of Unicode scalar values (`Str`), timestamps as
integer seconds (UTC), and `f64` score arithmetic as exact rational
arithmetic.  Hash maps are modelled as association lists; hash sets as lists;
iteration order of a hash container corresponds to the list order.
-/

/-- A Rust `&str`/`String`, as its sequence of Unicode scalar values. -/
abbrev Str := List Char

/-- Char-wise lowercasing, modelling `chars().flat_map(|c| c.to_lowercase())`. -/
def lowerStr (s : Str) : Str := s.map Char.toLower

/-- `Script` from `src/package/types.rs`. -/
structure Script where
  name : Str
  command : Str
  description : Option Str
deriving DecidableEq, Repr

/-- Rust `pattern.split('*')`: the fragments of the pattern between `*`s
(`n` stars give `n+1` fragments, empty fragments included). -/
def splitStar : Str → List Str
  | [] => [[]]
  | c :: rest =>
    if c = '*' then [] :: splitStar rest
    else
      match splitStar rest with
      | [] => [[c]]
      | h :: t => (c :: h) :: t

/-- Position of the first occurrence of `pat` as a contiguous substring of the
haystack, modelling Rust `str::find`. -/
def findSubAux (pat : Str) : Str → Nat → Option Nat
  | [], i => if pat = [] then some i else none
  | c :: rest, i =>
    if pat.isPrefixOf (c :: rest) then some i else findSubAux pat rest (i + 1)

def findSub (hay pat : Str) : Option Nat := findSubAux pat hay 0

/-- The multi-wildcard loop of `matches_pattern` (the `else` branch for three
or more fragments): fragment `0` must be a prefix, the last fragment a suffix,
middle fragments required substrings in order. -/
def multiMatchGo (total : Nat) : Nat → Str → List Str → Bool
  | _, _, [] => true
  | i, remaining, part :: rest =>
    if part = [] then multiMatchGo total (i + 1) remaining rest
    else if i = 0 then
      if part.isPrefixOf remaining then
        multiMatchGo total (i + 1) (remaining.drop part.length) rest
      else false
    else if i = total - 1 then
      if part.isSuffixOf remaining then multiMatchGo total (i + 1) remaining rest
      else false
    else
      match findSub remaining part with
      | some pos => multiMatchGo total (i + 1) (remaining.drop (pos + part.length)) rest
      | none => false

/-- `matches_pattern` from `src/package/types.rs`: literal equality unless the
pattern contains `*`; one `*` means prefix-and-suffix match; `*` alone matches
everything; several `*`s fall back to the ordered-substring loop. -/
def matchesPattern (name pat : Str) : Bool :=
  if ¬ pat.contains '*' then name == pat
  else
    match splitStar pat with
    | [pre, suf] => pre.isPrefixOf name && suf.isSuffixOf name
    | [_] => true
    | parts => multiMatchGo parts.length 0 name parts

/-- `matches_any_pattern` from `src/package/types.rs`. -/
def matchesAnyPattern (name : Str) (patterns : List Str) : Bool :=
  patterns.any (fun p => matchesPattern name p)

/-- `Scripts::without_matching` from `src/package/types.rs` (the collection is
its underlying vector). -/
def withoutMatching (scripts : List Script) (patterns : List Str) : List Script :=
  if patterns = [] then scripts
  else scripts.filter (fun s => ¬ matchesAnyPattern s.name patterns)

/-! ## History store (`src/history/storage.rs`) -/

/-- Truncating (toward-zero) integer division, the semantics of Rust `i64`
division used by `chrono::Duration::num_days`; the divisor is positive in all
uses here. -/
def tdiv (a b : Int) : Int := if 0 ≤ a then a / b else -((-a) / b)

def secondsPerDay : Int := 86400

/-- `ScriptHistory`: run count, last-run timestamp (seconds UTC), last args. -/
structure ScriptHistory where
  count : Nat
  lastRun : Int
  lastArgs : Option Str
deriving DecidableEq, Repr

/-- `ScriptHistory::score_at` — recency decays from 1 to 0 over 30 days,
count is capped at 100; score = normalized_count * 0.3 + recency * 0.7. -/
def ScriptHistory.scoreAt (h : ScriptHistory) (now : Int) : ℚ :=
  let daysAgo : Int := tdiv (now - h.lastRun) secondsPerDay
  let recencyScore : ℚ :=
    if daysAgo ≤ 0 then 1 else if 30 ≤ daysAgo then 0 else 1 - (daysAgo : ℚ) / 30
  let normalizedCount : ℚ := ((min h.count 100 : ℕ) : ℚ) / 100
  normalizedCount * (3 / 10) + recencyScore * (7 / 10)

/-- `ScriptHistory::record_run`. -/
def ScriptHistory.recordRun (h : ScriptHistory) (args : Option Str) (now : Int) : ScriptHistory :=
  { h with count := h.count + 1, lastRun := now, lastArgs := args }

/-- `ScriptHistory::new()` followed by `h.last_args = args`, as in
`ProjectHistory::record_run`'s `or_insert_with`. -/
def ScriptHistory.fresh (args : Option Str) (now : Int) : ScriptHistory :=
  { count := 1, lastRun := now, lastArgs := args }

/-- `ProjectHistory`: last script, last run, and a name → `ScriptHistory`
map (a `HashMap` modelled as an association list with distinct keys). -/
structure ProjectHistory where
  lastScript : Option Str
  lastRun : Int
  scripts : List (Str × ScriptHistory)
deriving DecidableEq, Repr

/-- `HashMap::get`. -/
def lookupKey {V : Type} (k : Str) : List (Str × V) → Option V
  | [] => none
  | p :: rest => if p.1 == k then some p.2 else lookupKey k rest

/-- Modify the (unique) binding of `k`, if present. -/
def updateFirst {V : Type} (l : List (Str × V)) (k : Str) (f : V → V) : List (Str × V) :=
  match l with
  | [] => []
  | p :: rest => if p.1 == k then (p.1, f p.2) :: rest else p :: updateFirst rest k f

/-- `HashMap::entry(k).and_modify(f).or_insert(dflt)`. -/
def entryUpsert {V : Type} (l : List (Str × V)) (k : Str) (f : V → V) (dflt : V) :
    List (Str × V) :=
  if l.any (fun p => p.1 == k) then updateFirst l k f else l ++ [(k, dflt)]

/-- `ProjectHistory::new()` (empty scripts map, `last_run = now`). -/
def ProjectHistory.empty (now : Int) : ProjectHistory :=
  { lastScript := none, lastRun := now, scripts := [] }

/-- `ProjectHistory::record_run`. -/
def ProjectHistory.recordRun (ph : ProjectHistory) (script : Str) (args : Option Str)
    (now : Int) : ProjectHistory :=
  { ph with
    lastScript := some script
    lastRun := now
    scripts := entryUpsert ph.scripts script (fun h => h.recordRun args now)
      (ScriptHistory.fresh args now) }

/-- `History`: format version and project-path → `ProjectHistory` map. -/
structure History where
  version : Nat
  projects : List (Str × ProjectHistory)
deriving DecidableEq, Repr

/-- `History::record_run` — `get_or_create_project` (entry/or_default)
followed by `ProjectHistory::record_run`. -/
def History.recordRun (h : History) (projectDir script : Str) (args : Option Str)
    (now : Int) : History :=
  { h with
    projects := entryUpsert h.projects projectDir
      (fun ph => ph.recordRun script args now)
      ((ProjectHistory.empty now).recordRun script args now) }

/-! ## Sorting helpers

Rust `sort_by` comparators are modelled as binary relations handed to
`List.insertionSort`.  `keyLE f` models a comparator `f(a).cmp(&f(b))`;
`thenLE f g` models `f(a).cmp(&f(b)).then_with(|| g(a).cmp(&g(b)))`. -/

def keyLE {α : Type} {β : Type} [LinearOrder β] (f : α → β) : α → α → Prop :=
  fun x y => f x ≤ f y

instance {α β : Type} [LinearOrder β] (f : α → β) : DecidableRel (keyLE f) :=
  fun x y => inferInstanceAs (Decidable (f x ≤ f y))

instance {α β : Type} [LinearOrder β] (f : α → β) : IsTotal α (keyLE f) :=
  ⟨fun x y => le_total (f x) (f y)⟩

instance {α β : Type} [LinearOrder β] (f : α → β) : IsTrans α (keyLE f) :=
  ⟨fun _ _ _ h1 h2 => le_trans h1 h2⟩

def thenLE {α β γ : Type} [LinearOrder β] [LinearOrder γ] (f : α → β) (g : α → γ) :
    α → α → Prop :=
  fun x y => f x < f y ∨ (f x = f y ∧ g x ≤ g y)

instance {α β γ : Type} [LinearOrder β] [LinearOrder γ] (f : α → β) (g : α → γ) :
    DecidableRel (thenLE f g) :=
  fun x y => inferInstanceAs (Decidable (f x < f y ∨ (f x = f y ∧ g x ≤ g y)))

instance {α β γ : Type} [LinearOrder β] [LinearOrder γ] (f : α → β) (g : α → γ) :
    IsTotal α (thenLE f g) := by
  constructor
  intro x y
  rcases lt_trichotomy (f x) (f y) with h | h | h
  · exact Or.inl (Or.inl h)
  · rcases le_total (g x) (g y) with h2 | h2
    · exact Or.inl (Or.inr ⟨h, h2⟩)
    · exact Or.inr (Or.inr ⟨h.symm, h2⟩)
  · exact Or.inr (Or.inl h)

instance {α β γ : Type} [LinearOrder β] [LinearOrder γ] (f : α → β) (g : α → γ) :
    IsTrans α (thenLE f g) := by
  constructor
  intro x y z h1 h2
  rcases h1 with h1 | ⟨he1, hg1⟩
  · rcases h2 with h2 | ⟨he2, _⟩
    · exact Or.inl (lt_trans h1 h2)
    · exact Or.inl (he2 ▸ h1)
  · rcases h2 with h2 | ⟨he2, hg2⟩
    · exact Or.inl (he1 ▸ h2)
    · exact Or.inr ⟨he1.trans he2, le_trans hg1 hg2⟩

/-! ## Recent-usage sorting (`History::get_sorted_by_recent_at`) -/

/-- Score of a script in a (possibly absent) project history:
`p.get_script(name).map(|h| h.score_at(now)).unwrap_or(0.0)`. -/
def historyScore (ph : Option ProjectHistory) (name : Str) (now : Int) : ℚ :=
  ((ph.bind (fun p => lookupKey name p.scripts)).map (fun h => h.scoreAt now)).getD 0

/-- The comparator of `get_sorted_by_recent_at`:
score descending, then name ascending (`b.1.partial_cmp(&a.1)…then_with(name)`). -/
abbrev scoredLE : Script × ℚ → Script × ℚ → Prop :=
  thenLE (fun p => OrderDual.toDual p.2) (fun p => p.1.name)

/-- `History::get_sorted_by_recent_at`. -/
def History.getSortedByRecentAt (hist : History) (projectDir : Str)
    (scripts : List Script) (now : Int) : List Script :=
  let ph := lookupKey projectDir hist.projects
  let scored := scripts.map (fun s => (s, historyScore ph s.name now))
  (List.insertionSort scoredLE scored).map (fun p => p.1)

/-! ## LRU cleanup (`History::cleanup_with_limits`, `ProjectHistory::cleanup`) -/

/-- `for key in keys { map.remove(&key) }` on an association-list map. -/
def removeKeys {V : Type} (l : List (Str × V)) (ks : List Str) : List (Str × V) :=
  ks.foldl (fun acc k => acc.eraseP (fun p => p.1 == k)) l

/-- `ProjectHistory::cleanup`: LRU-evict scripts down to `maxScripts`. -/
def ProjectHistory.cleanup (ph : ProjectHistory) (maxScripts : Nat) : ProjectHistory :=
  if ph.scripts.length ≤ maxScripts then ph
  else
    let sorted := List.insertionSort (keyLE (fun p : Str × ScriptHistory => p.2.lastRun)) ph.scripts
    let toRemove := ph.scripts.length - maxScripts
    let keysToRemove := (sorted.take toRemove).map (fun p => p.1)
    { ph with scripts := removeKeys ph.scripts keysToRemove }

/-- `History::cleanup_with_limits`: per-project script cleanup, then LRU
eviction of whole projects down to `maxProjects`. -/
def History.cleanupWithLimits (h : History) (maxProjects maxScripts : Nat) : History :=
  let projects1 := h.projects.map (fun p => (p.1, p.2.cleanup maxScripts))
  if projects1.length ≤ maxProjects then { h with projects := projects1 }
  else
    let sorted := List.insertionSort (keyLE (fun p : Str × ProjectHistory => p.2.lastRun)) projects1
    let toRemove := projects1.length - maxProjects
    let keysToRemove := (sorted.take toRemove).map (fun p => p.1)
    { h with projects := removeKeys projects1 keysToRemove }

/-! ## Fuzzy filter (`src/filter/fuzzy.rs`)

The Skim matcher (`SkimMatcherV2::fuzzy_match`) is an external crate; it is
kept abstract as a function from (lower-cased) candidate text and query to an
optional score. -/

/-- An abstract `fuzzy_match(text, query) → Option<score>`. -/
abbrev Matcher := Str → Str → Option Int

/-- The per-script body of the `filter_scripts` loop: try the name, then (if
enabled) the description at half score. -/
def scriptMatchScore (m : Matcher) (searchDescriptions : Bool) (queryLower : Str)
    (s : Script) : Option Int :=
  match m (lowerStr s.name) queryLower with
  | some score => some score
  | none =>
    if searchDescriptions then
      match s.description with
      | some d =>
        match m (lowerStr d) queryLower with
        | some score => some (tdiv score 2)
        | none => none
      | none => none
    else none

/-- `filter_scripts` from `src/filter/fuzzy.rs`: empty query yields every
index with score 0 in order; otherwise the matching `(index, score)` pairs
sorted by score descending. -/
def filterScripts (m : Matcher) (query : Str) (scripts : List Script)
    (searchDescriptions : Bool) : List (Nat × Int) :=
  if query = [] then (List.range scripts.length).map (fun i => (i, (0 : Int)))
  else
    let queryLower := lowerStr query
    let ms := scripts.enum.filterMap
      (fun p => (scriptMatchScore m searchDescriptions queryLower p.2).map
        (fun sc => (p.1, sc)))
    List.insertionSort (keyLE (fun p : Nat × Int => OrderDual.toDual p.2)) ms

/-! ## App state (`src/tui/app.rs`) -/

inductive SortMode
  | Recent
  | Alpha
  | Category
deriving DecidableEq, Repr

inductive Runner
  | Npm
  | Yarn
  | Pnpm
  | Bun
deriving DecidableEq, Repr

/-- A workspace of a monorepo (name, path, its scripts). -/
structure Workspace where
  name : Str
  path : Str
  scripts : List Script
deriving DecidableEq, Repr

/-- `AppMode` — exactly one mode is active; modes carry their own data.
The multi-select `HashSet<usize>` is modelled as a duplicate-free list. -/
inductive AppMode
  | Normal
  | Filter (query : Str)
  | MultiSelect (selected : List Nat)
  | Help
  | Error (message : Str)
  | Args (scriptIndex : Nat) (input : Str)
  | WorkspaceSelect
deriving DecidableEq, Repr

inductive WorkspaceContext
  | Root
  | Workspace (idx : Nat)
deriving DecidableEq, Repr

/-- `ScriptRun`: what to run after the TUI exits. -/
structure ScriptRun where
  script : Script
  args : Option Str
  workspace : Option Str
  workspacePath : Option Str
deriving DecidableEq, Repr

/-- The configuration fields the core reads. -/
structure Config where
  defaultSort : SortMode
  searchDescriptions : Bool
deriving DecidableEq, Repr

/-- `App` — the single owned state record. -/
structure App where
  scripts : List Script
  config : Config
  history : History
  runner : Runner
  projectName : Str
  projectPath : Str
  isMonorepo : Bool
  workspaces : List Workspace
  workspaceContext : WorkspaceContext
  workspaceSelected : Nat
  mode : AppMode
  selected : Nat
  scrollOffset : Nat
  filterText : Str
  sortMode : SortMode
  visibleIndices : List Nat
  columns : Nat
  shouldQuit : Bool
  scriptToRun : Option ScriptRun
deriving DecidableEq, Repr

/-- Name of the script at index `i`, `""` when out of range
(`scripts.iter().nth(i).map(|s| s.name()).unwrap_or("")`). -/
def nameAt (scripts : List Script) (i : Nat) : Str :=
  ((scripts.get? i).map Script.name).getD []

/-- `name.split(':').next().unwrap_or(name)`. -/
def categoryOf (name : Str) : Str := name.takeWhile (fun c => c ≠ ':')

/-- `scripts.iter().position(pred)`. -/
def findPos (p : Script → Bool) : List Script → Option Nat
  | [] => none
  | s :: rest => if p s then some 0 else (findPos p rest).map (fun i => i + 1)

/-- `App::sort_indices`. In `Recent` mode the candidate scripts are cloned,
ranked by `get_sorted_by_recent`, mapped back to indices by name position and
restricted to the candidate set; `Alpha`/`Category` sort the indices by the
corresponding name comparator. -/
def App.sortIndices (a : App) (now : Int) (indices : List Nat) : List Nat :=
  match a.sortMode with
  | SortMode.Recent =>
    let scriptsOwned := indices.filterMap (fun i => a.scripts.get? i)
    let sorted := a.history.getSortedByRecentAt a.projectPath scriptsOwned now
    (sorted.filterMap (fun s => findPos (fun sc => sc.name == s.name) a.scripts)).filter
      (fun i => indices.contains i)
  | SortMode.Alpha =>
    List.insertionSort (keyLE (fun i => nameAt a.scripts i)) indices
  | SortMode.Category =>
    List.insertionSort
      (thenLE (fun i => categoryOf (nameAt a.scripts i)) (fun i => nameAt a.scripts i)) indices

/-- The filter step of `App::update_visible_scripts`. -/
def App.filteredIndices (m : Matcher) (a : App) : List Nat :=
  if a.filterText = [] then List.range a.scripts.length
  else (filterScripts m a.filterText a.scripts a.config.searchDescriptions).map (fun p => p.1)

/-- `App::update_visible_scripts`: filter, sort, then clamp the selection. -/
def App.updateVisibleScripts (m : Matcher) (now : Int) (a : App) : App :=
  let vis := a.sortIndices now (a.filteredIndices m)
  if vis.length ≤ a.selected then
    { a with visibleIndices := vis, selected := vis.length - 1 }
  else
    { a with visibleIndices := vis }

/-! ### Grid navigation -/

/-- `App::row_count`. -/
def App.rowCount (a : App) : Nat :=
  if a.visibleIndices.length = 0 ∨ a.columns = 0 then 0
  else (a.visibleIndices.length + a.columns - 1) / a.columns

/-- `App::move_up`. -/
def App.moveUp (a : App) : App :=
  if a.visibleIndices = [] ∨ a.columns = 0 then a
  else
    let row := a.selected / a.columns
    let col := a.selected % a.columns
    if 0 < row then
      let newIndex := (row - 1) * a.columns + col
      if newIndex < a.visibleIndices.length then { a with selected := newIndex } else a
    else a

/-- `App::move_down`. -/
def App.moveDown (a : App) : App :=
  if a.visibleIndices = [] ∨ a.columns = 0 then a
  else
    let row := a.selected / a.columns
    let col := a.selected % a.columns
    let newIndex := (row + 1) * a.columns + col
    if newIndex < a.visibleIndices.length then { a with selected := newIndex }
    else if row < a.rowCount - 1 then
      { a with selected := a.visibleIndices.length - 1 }
    else a

/-- `App::move_left`. -/
def App.moveLeft (a : App) : App :=
  if 0 < a.selected then { a with selected := a.selected - 1 } else a

/-- `App::move_right` (`len.saturating_sub(1)` is truncated subtraction). -/
def App.moveRight (a : App) : App :=
  if a.selected < a.visibleIndices.length - 1 then { a with selected := a.selected + 1 } else a

/-- `App::move_to_first`. -/
def App.moveToFirst (a : App) : App := { a with selected := 0 }

/-- `App::move_to_last`. -/
def App.moveToLast (a : App) : App := { a with selected := a.visibleIndices.length - 1 }

/-- `App::select_by_number`. -/
def App.selectByNumber (a : App) (num : Nat) : App :=
  if 0 < num ∧ num ≤ a.visibleIndices.length then { a with selected := num - 1 } else a

/-! ### Actions -/

/-- `App::quit`. -/
def App.quit (a : App) : App := { a with shouldQuit := true }

/-- `App::get_visible_script`. -/
def App.getVisibleScript (a : App) (index : Nat) : Option Script :=
  (a.visibleIndices.get? index).bind (fun i => a.scripts.get? i)

/-- `App::selected_script`. -/
def App.selectedScript (a : App) : Option Script := a.getVisibleScript a.selected

/-- `App::get_workspace_info`. -/
def App.getWorkspaceInfo (a : App) : Option Str × Option Str :=
  match a.workspaceContext with
  | WorkspaceContext.Root => (none, none)
  | WorkspaceContext.Workspace idx =>
    match a.workspaces.get? idx with
    | some ws => (some ws.name, some ws.path)
    | none => (none, none)

/-- `App::run_selected`: returned run and updated state. -/
def App.runSelected (a : App) : Option ScriptRun × App :=
  match a.selectedScript with
  | some s =>
    let wi := a.getWorkspaceInfo
    let run : ScriptRun := { script := s, args := none, workspace := wi.1, workspacePath := wi.2 }
    (some run, { a with scriptToRun := some run, shouldQuit := true })
  | none => (none, a)

def App.runSelectedApp (a : App) : App := (a.runSelected).2

/-- `App::run_numbered`. -/
def App.runNumbered (a : App) (num : Nat) : App :=
  if 0 < num ∧ num ≤ a.visibleIndices.length then
    ({ a with selected := num - 1 }).runSelectedApp
  else a

/-- `App::run_with_args` (empty args string becomes `None`). -/
def App.runWithArgs (a : App) (args : Str) : App :=
  match a.selectedScript with
  | some s =>
    let wi := a.getWorkspaceInfo
    let run : ScriptRun :=
      { script := s, args := if args = [] then none else some args,
        workspace := wi.1, workspacePath := wi.2 }
    { a with scriptToRun := some run, shouldQuit := true }
  | none => a

/-- `HashSet::insert` on the list model of a set. -/
def hsInsert (l : List Nat) (i : Nat) : List Nat := if l.contains i then l else l ++ [i]

/-- `App::toggle_current_selection`. -/
def App.toggleCurrentSelection (a : App) : App :=
  match a.mode with
  | AppMode.MultiSelect sel =>
    if sel.contains a.selected then
      { a with mode := AppMode.MultiSelect (sel.filter (fun j => j ≠ a.selected)) }
    else
      { a with mode := AppMode.MultiSelect (hsInsert sel a.selected) }
  | _ => a

/-- `App::run_multi_selected`: the materialized runs and the updated state.
Runs are collected for every selected index still resolving to a visible
script; only a non-empty batch commits (`script_to_run` + `should_quit`). -/
def App.multiRuns (a : App) : List ScriptRun :=
  match a.mode with
  | AppMode.MultiSelect sel =>
    sel.filterMap (fun idx => (a.getVisibleScript idx).map (fun s =>
      { script := s, args := none, workspace := a.getWorkspaceInfo.1,
        workspacePath := a.getWorkspaceInfo.2 }))
  | _ => []

def App.runMultiSelected (a : App) : List ScriptRun × App :=
  if a.multiRuns = [] then (a.multiRuns, a)
  else (a.multiRuns, { a with scriptToRun := a.multiRuns.head?, shouldQuit := true })

/-! ### Mode and projection management -/

/-- `App::set_mode`. -/
def App.setMode (a : App) (mo : AppMode) : App := { a with mode := mo }

/-- `App::enter_args_mode`. -/
def App.enterArgsMode (a : App) : App :=
  if a.selected < a.visibleIndices.length then
    { a with mode := AppMode.Args a.selected [] }
  else a

/-- `App::toggle_multi_select`. -/
def App.toggleMultiSelect (a : App) : App :=
  match a.mode with
  | AppMode.MultiSelect _ => { a with mode := AppMode.Normal }
  | AppMode.Normal => { a with mode := AppMode.MultiSelect [] }
  | _ => a

/-- `App::toggle_help`. -/
def App.toggleHelp (a : App) : App :=
  match a.mode with
  | AppMode.Help => { a with mode := AppMode.Normal }
  | _ => { a with mode := AppMode.Help }

/-- `App::set_filter`. -/
def App.setFilter (m : Matcher) (now : Int) (a : App) (text : Str) : App :=
  App.updateVisibleScripts m now { a with filterText := text, mode := AppMode.Filter text }

/-- `App::clear_filter`. -/
def App.clearFilter (m : Matcher) (now : Int) (a : App) : App :=
  App.updateVisibleScripts m now { a with filterText := [] }

/-- `App::cycle_sort_mode`: Recent → Alpha → Category → Recent. -/
def App.cycleSortMode (m : Matcher) (now : Int) (a : App) : App :=
  App.updateVisibleScripts m now
    { a with sortMode :=
        match a.sortMode with
        | SortMode.Recent => SortMode.Alpha
        | SortMode.Alpha => SortMode.Category
        | SortMode.Category => SortMode.Recent }

/-- `App::set_sort_mode`. -/
def App.setSortMode (m : Matcher) (now : Int) (a : App) (mo : SortMode) : App :=
  App.updateVisibleScripts m now { a with sortMode := mo }

/-! ### Workspace management -/

/-- `App::select_workspace`: index 0 is the root, k>0 the (k-1)-th workspace
whose scripts replace the active store; always resets selection and mode and
recomputes the projection. -/
def App.selectWorkspace (m : Matcher) (now : Int) (a : App) (index : Nat) : App :=
  let a1 :=
    if index = 0 then { a with workspaceContext := WorkspaceContext.Root }
    else
      match a.workspaces.get? (index - 1) with
      | some ws =>
        { a with workspaceContext := WorkspaceContext.Workspace (index - 1),
                 scripts := ws.scripts }
      | none => a
  App.updateVisibleScripts m now { a1 with selected := 0, mode := AppMode.Normal }

/-- `App::select_current_workspace`. -/
def App.selectCurrentWorkspace (m : Matcher) (now : Int) (a : App) : App :=
  a.selectWorkspace m now a.workspaceSelected

/-- `App::back_to_workspace_select`. -/
def App.backToWorkspaceSelect (a : App) : App :=
  if a.isMonorepo then { a with mode := AppMode.WorkspaceSelect } else a

/-- `App::workspace_move_up`. -/
def App.workspaceMoveUp (a : App) : App :=
  if 0 < a.workspaceSelected then { a with workspaceSelected := a.workspaceSelected - 1 } else a

/-- `App::workspace_move_down` (the extra slot is the root entry). -/
def App.workspaceMoveDown (a : App) : App :=
  if a.workspaceSelected < a.workspaces.length then
    { a with workspaceSelected := a.workspaceSelected + 1 }
  else a

/-- `App::workspace_move_left`. -/
def App.workspaceMoveLeft (a : App) : App :=
  if 0 < a.workspaceSelected then { a with workspaceSelected := a.workspaceSelected - 1 } else a

/-- `App::workspace_move_right`. -/
def App.workspaceMoveRight (a : App) : App :=
  if a.workspaceSelected < a.workspaces.length then
    { a with workspaceSelected := a.workspaceSelected + 1 }
  else a

/-- `App::select_workspace_by_number`. -/
def App.selectWorkspaceByNumber (m : Matcher) (now : Int) (a : App) (num : Nat) : App :=
  if 0 < num ∧ num ≤ a.workspaces.length + 1 then a.selectWorkspace m now (num - 1) else a

/-- `App::visible_count`. -/
def App.visibleCount (a : App) : Nat := a.visibleIndices.length

/-- `calculate_columns`. -/
def calculateColumns (width : Nat) : Nat :=
  if width < 60 then 1
  else if width < 90 then 2
  else if width < 120 then 3
  else if width < 160 then 4
  else 5

/-- `App::update_columns`. -/
def App.updateColumns (a : App) (width : Nat) : App :=
  { a with columns := calculateColumns width }

/-- `App::with_workspaces`: the constructor, ending in the initial
`update_visible_scripts`. -/
def App.withWorkspaces (m : Matcher) (now : Int) (scripts : List Script) (config : Config)
    (history : History) (projectName projectPath : Str) (runner : Runner)
    (workspaces : List Workspace) : App :=
  App.updateVisibleScripts m now
    { scripts := scripts
      config := config
      history := history
      runner := runner
      projectName := projectName
      projectPath := projectPath
      isMonorepo := !workspaces.isEmpty
      workspaces := workspaces
      workspaceContext := WorkspaceContext.Root
      workspaceSelected := 0
      mode := if workspaces.isEmpty then AppMode.Normal else AppMode.WorkspaceSelect
      selected := 0
      scrollOffset := 0
      filterText := []
      sortMode := config.defaultSort
      visibleIndices := List.range scripts.length
      columns := 1
      shouldQuit := false
      scriptToRun := none }

/-! ## Input handling (`src/tui/input.rs`) -/

inductive KeyCode
  | Char (c : Char)
  | Up
  | Down
  | Left
  | Right
  | Enter
  | Esc
  | Backspace
  | Home
  | End
  | Tab
deriving DecidableEq, Repr

/-- The crossterm modifier flags the dispatcher inspects. -/
structure KeyModifiers where
  ctrl : Bool
  alt : Bool
  shift : Bool
deriving DecidableEq, Repr

def KeyModifiers.plain : KeyModifiers := ⟨false, false, false⟩

/-- `KeyModifiers::CONTROL` — exactly the control flag. -/
def KeyModifiers.control : KeyModifiers := ⟨true, false, false⟩

structure KeyEvent where
  code : KeyCode
  modifiers : KeyModifiers
deriving DecidableEq, Repr

/-- `c.to_digit(10).unwrap() as usize` for an ASCII digit. -/
def digitToNat (c : Char) : Nat := c.toNat - '0'.toNat

/-- The `KeyCode::Char(c)` arms of `handle_normal_mode`. -/
def handleNormalChar (m : Matcher) (now : Int) (a : App) (c : Char) : App :=
  if c = 'k' then a.moveUp
  else if c = 'j' then a.moveDown
  else if c = 'h' then a.moveLeft
  else if c = 'l' then a.moveRight
  else if c = 'g' then a.moveToFirst
  else if c = 'G' then a.moveToLast
  else if c = 'o' then a.runSelectedApp
  else if c.isDigit = true ∧ c ≠ '0' then a.runNumbered (digitToNat c)
  else if c = '/' then a.setMode (AppMode.Filter [])
  else if c = 's' then a.cycleSortMode m now
  else if c = 'a' then a.enterArgsMode
  else if c = 'm' then a.toggleMultiSelect
  else if c = '?' then a.toggleHelp
  else if c = 'q' then a.quit
  else if c = 'w' ∧ a.isMonorepo = true then a.backToWorkspaceSelect
  else a

/-- The `KeyCode::Char(c)` arms of `handle_workspace_select_mode`. -/
def handleWorkspaceChar (m : Matcher) (now : Int) (a : App) (c : Char) : App :=
  if c = 'k' then a.workspaceMoveUp
  else if c = 'j' then a.workspaceMoveDown
  else if c = 'h' then a.workspaceMoveLeft
  else if c = 'l' then a.workspaceMoveRight
  else if c.isDigit = true ∧ c ≠ '0' then a.selectWorkspaceByNumber m now (digitToNat c)
  else if c = '?' then a.toggleHelp
  else if c = 'q' then a.quit
  else a

/-- The `KeyCode::Char(c)` arms of `handle_multiselect_mode`. -/
def handleMultiselectChar (a : App) (currentSelected : List Nat) (c : Char) : App :=
  if c = ' ' then a.toggleCurrentSelection
  else if c = 'a' then
    a.setMode (AppMode.MultiSelect ((List.range a.visibleCount).foldl hsInsert currentSelected))
  else if c = 'n' then a.setMode (AppMode.MultiSelect [])
  else if c = 'k' then a.moveUp
  else if c = 'j' then a.moveDown
  else if c = 'h' then a.moveLeft
  else if c = 'l' then a.moveRight
  else if c = 'g' then a.moveToFirst
  else if c = 'G' then a.moveToLast
  else a

/-- `handle_normal_mode`. -/
def handleNormalMode (m : Matcher) (now : Int) (a : App) (key : KeyEvent) : App :=
  match key.code with
  | KeyCode.Up => a.moveUp
  | KeyCode.Down => a.moveDown
  | KeyCode.Left => a.moveLeft
  | KeyCode.Right => a.moveRight
  | KeyCode.Home => a.moveToFirst
  | KeyCode.End => a.moveToLast
  | KeyCode.Enter => a.runSelectedApp
  | KeyCode.Char c => handleNormalChar m now a c
  | _ => a

/-- `handle_workspace_select_mode`. -/
def handleWorkspaceSelectMode (m : Matcher) (now : Int) (a : App) (key : KeyEvent) : App :=
  match key.code with
  | KeyCode.Up => a.workspaceMoveUp
  | KeyCode.Down => a.workspaceMoveDown
  | KeyCode.Left => a.workspaceMoveLeft
  | KeyCode.Right => a.workspaceMoveRight
  | KeyCode.Enter => a.selectCurrentWorkspace m now
  | KeyCode.Esc => a.quit
  | KeyCode.Char c => handleWorkspaceChar m now a c
  | _ => a

/-- `handle_filter_mode`. -/
def handleFilterMode (m : Matcher) (now : Int) (a : App) (key : KeyEvent)
    (currentQuery : Str) : App :=
  match key.code with
  | KeyCode.Esc => (a.clearFilter m now).setMode AppMode.Normal
  | KeyCode.Enter => a.runSelectedApp
  | KeyCode.Backspace =>
    let query := currentQuery.dropLast
    if query = [] then (a.clearFilter m now).setMode AppMode.Normal
    else a.setFilter m now query
  | KeyCode.Up => a.moveUp
  | KeyCode.Down => a.moveDown
  | KeyCode.Left => a.moveLeft
  | KeyCode.Right => a.moveRight
  | KeyCode.Char c =>
    if c.isDigit ∧ c ≠ '0' ∧ currentQuery = [] then a.runNumbered (digitToNat c)
    else a.setFilter m now (currentQuery ++ [c])
  | _ => a

/-- `handle_help_mode` — every key dismisses help. -/
def handleHelpMode (a : App) (_key : KeyEvent) : App := a.setMode AppMode.Normal

/-- `handle_error_mode` — every key dismisses the error. -/
def handleErrorMode (a : App) (_key : KeyEvent) : App := a.setMode AppMode.Normal

/-- `handle_multiselect_mode`. -/
def handleMultiselectMode (a : App) (key : KeyEvent) (currentSelected : List Nat) : App :=
  match key.code with
  | KeyCode.Esc => a.setMode AppMode.Normal
  | KeyCode.Enter => (a.runMultiSelected).2
  | KeyCode.Up => a.moveUp
  | KeyCode.Down => a.moveDown
  | KeyCode.Left => a.moveLeft
  | KeyCode.Right => a.moveRight
  | KeyCode.Home => a.moveToFirst
  | KeyCode.End => a.moveToLast
  | KeyCode.Char c => handleMultiselectChar a currentSelected c
  | _ => a

/-- `handle_args_mode`. -/
def handleArgsMode (_m : Matcher) (_now : Int) (a : App) (key : KeyEvent)
    (scriptIndex : Nat) (currentInput : Str) : App :=
  match key.code with
  | KeyCode.Esc => a.setMode AppMode.Normal
  | KeyCode.Enter => a.runWithArgs currentInput
  | KeyCode.Backspace => a.setMode (AppMode.Args scriptIndex currentInput.dropLast)
  | KeyCode.Char c => a.setMode (AppMode.Args scriptIndex (currentInput ++ [c]))
  | _ => a

/-- The text-input modes excluded from the global `Ctrl+C` quit. -/
def isTextInputMode : AppMode → Bool
  | AppMode.Filter _ => true
  | AppMode.Args _ _ => true
  | _ => false

/-- `handle_key`: the global `Ctrl+C` quit (except in text-input modes),
then dispatch on the current mode. -/
def handleKey (m : Matcher) (now : Int) (a : App) (key : KeyEvent) : App :=
  if key.code = KeyCode.Char 'c' ∧ key.modifiers = KeyModifiers.control ∧
      isTextInputMode a.mode = false then
    a.quit
  else
    match a.mode with
    | AppMode.Normal => handleNormalMode m now a key
    | AppMode.Filter q => handleFilterMode m now a key q
    | AppMode.Help => handleHelpMode a key
    | AppMode.Error _ => handleErrorMode a key
    | AppMode.MultiSelect sel => handleMultiselectMode a key sel
    | AppMode.Args i inp => handleArgsMode m now a key i inp
    | AppMode.WorkspaceSelect => handleWorkspaceSelectMode m now a key

/-- A terminal event, as dispatched by `handle_event`. -/
inductive TermEvent
  | Key (key : KeyEvent)
  | Resize (width : Nat) (height : Nat)
  | FocusChange
deriving DecidableEq, Repr

/-- `handle_event`. -/
def handleEvent (m : Matcher) (now : Int) (a : App) (e : TermEvent) : App :=
  match e with
  | TermEvent.Key key => handleKey m now a key
  | TermEvent.Resize width _ => a.updateColumns width
  | TermEvent.FocusChange => a

/-- App states reachable from a constructor call by a sequence of handled
terminal events (each event handled at an arbitrary wall-clock time). -/
inductive Reachable (m : Matcher) : App → Prop
  | start : ∀ (now : Int) (scripts : List Script) (config : Config) (history : History)
      (projectName projectPath : Str) (runner : Runner) (workspaces : List Workspace),
      Reachable m (App.withWorkspaces m now scripts config history projectName projectPath
        runner workspaces)
  | step : ∀ (a : App) (e : TermEvent) (now : Int),
      Reachable m a → Reachable m (handleEvent m now a e)

/-- The selection-cursor invariant `0 ≤ selected ≤ max(0, len(visible)-1)`
(in truncated ℕ subtraction). -/
def App.SelInv (a : App) : Prop := a.selected ≤ a.visibleIndices.length - 1

/-! ## Shared concrete inputs for witnesses -/

/-- A matcher that never matches (used to instantiate witnesses). -/
def noMatcher : Matcher := fun _ _ => none

/-- A minimal concrete app state. -/
def baseApp : App :=
  { scripts := []
    config := ⟨SortMode.Recent, true⟩
    history := ⟨1, []⟩
    runner := Runner.Npm
    projectName := []
    projectPath := []
    isMonorepo := false
    workspaces := []
    workspaceContext := WorkspaceContext.Root
    workspaceSelected := 0
    mode := AppMode.Normal
    selected := 0
    scrollOffset := 0
    filterText := []
    sortMode := SortMode.Recent
    visibleIndices := []
    columns := 1
    shouldQuit := false
    scriptToRun := none }

/-- The recency term as the claim states it, with floor day arithmetic
(`Int` division by the positive `secondsPerDay` is floor division). -/
def specRecency (now lastRun : Int) : ℚ :=
  if (now - lastRun) / secondsPerDay ≤ 0 then 1
  else if 30 ≤ (now - lastRun) / secondsPerDay then 0
  else 1 - (((now - lastRun) / secondsPerDay : Int) : ℚ) / 30

/-- Score of a script name under a project's history, from the `History`. -/
def histScoreOf (hist : History) (projectDir name : Str) (now : Int) : ℚ :=
  historyScore (lookupKey projectDir hist.projects) name now

def dummyScript : Script := ⟨[], [], none⟩

/-- History score of the script at index `i` of the app's active store. -/
def scoreOfIdx (a : App) (now : Int) (i : Nat) : ℚ :=
  histScoreOf a.history a.projectPath (nameAt a.scripts i) now

/-- Relative order of two values in a list (position of first occurrence). -/
abbrev relOrder (l : List Nat) (i j : Nat) : Prop := l.indexOf i < l.indexOf j

/-- The claim as stated: with a non-empty filter in `Recent` mode, filtered
candidates with equal history score keep the relative order the fuzzy filter
gave them. -/
def fuzzyTiebreakClaim (m : Matcher) (now : Int) (a : App) : Prop :=
  a.filterText ≠ [] → a.sortMode = SortMode.Recent →
  ∀ i j : Nat,
    i ∈ (filterScripts m a.filterText a.scripts a.config.searchDescriptions).map
      (fun p => p.1) →
    j ∈ (filterScripts m a.filterText a.scripts a.config.searchDescriptions).map
      (fun p => p.1) →
    scoreOfIdx a now i = scoreOfIdx a now j →
    (relOrder ((filterScripts m a.filterText a.scripts a.config.searchDescriptions).map
        (fun p => p.1)) i j ↔
      relOrder ((a.updateVisibleScripts m now).visibleIndices) i j)

/-- A concrete Skim-style matcher for the query `"b"`: the exact name `"b"`
scores 2, the middle match inside `"ab"` scores 1 (exact > middle, as the
spec requires of the scorer). -/
def cexMatcher : Matcher := fun text query =>
  if query = ['b'] ∧ text = ['b'] then some 2
  else if query = ['b'] ∧ text = ['a', 'b'] then some 1
  else none

def cexApp : App :=
  { baseApp with
    scripts := [⟨['b'], [], none⟩, ⟨['a', 'b'], [], none⟩]
    mode := AppMode.Filter ['b']
    filterText := ['b']
    visibleIndices := [0, 1] }

def c3App : App := { baseApp with scripts := [⟨['x'], [], none⟩] }

def c2Start : App :=
  App.withWorkspaces noMatcher 0 [] ⟨SortMode.Recent, true⟩ ⟨1, []⟩ [] [] Runner.Npm []

/-! ## Claim C5 — the scoring formula -/

/-- The truncating day count and the floor day count land in the same branch
of the recency definition. -/
theorem tdiv_day_cases (D : Int) :
    tdiv D secondsPerDay = D / secondsPerDay ∨
      (tdiv D secondsPerDay ≤ 0 ∧ D / secondsPerDay ≤ 0) := by
  by_cases h : 0 ≤ D
  · exact Or.inl (if_pos h)
  · push_neg at h
    refine Or.inr ⟨?_, ?_⟩
    · have h1 : tdiv D secondsPerDay = -((-D) / secondsPerDay) := if_neg (by omega)
      have h2 : 0 ≤ (-D) / secondsPerDay :=
        Int.ediv_nonneg (by omega) (by norm_num [secondsPerDay])
      omega
    · have h3 : D / secondsPerDay ≤ 0 / secondsPerDay :=
        Int.ediv_le_ediv (by norm_num [secondsPerDay]) (le_of_lt h)
      simpa using h3

theorem scoreAt_eq_spec (h : ScriptHistory) (now : Int) :
    h.scoreAt now =
      (3 / 10 : ℚ) * (((min h.count 100 : ℕ) : ℚ) / 100) +
        (7 / 10 : ℚ) * specRecency now h.lastRun := by
  simp only [ScriptHistory.scoreAt, specRecency]
  rcases tdiv_day_cases (now - h.lastRun) with hc | ⟨h1, h2⟩
  · rw [hc]; ring
  · rw [if_pos h1, if_pos h2]; ring

theorem specRecency_nonneg (now lastRun : Int) : 0 ≤ specRecency now lastRun := by
  unfold specRecency
  split
  · norm_num
  · split
    · norm_num
    · rename_i h1 h2
      push_neg at h1 h2
      rw [sub_nonneg, div_le_one (by norm_num)]
      exact_mod_cast le_of_lt h2

/-- Claim C5: `score_at(now)` equals
`0.3 * (min(count,100)/100) + 0.7 * recency` with recency 1 when the floor
day count is ≤ 0, 0 when it is ≥ 30 (in particular exactly 0 at 30 days,
never negative), and a script with no history entry scores 0. -/
theorem claim5_score_formula (h : ScriptHistory) (now : Int) (ph : Option ProjectHistory)
    (name : Str) :
    h.scoreAt now =
        (3 / 10 : ℚ) * (((min h.count 100 : ℕ) : ℚ) / 100) +
          (7 / 10 : ℚ) * specRecency now h.lastRun
      ∧ ((now - h.lastRun) / secondsPerDay = 30 → specRecency now h.lastRun = 0)
      ∧ 0 ≤ h.scoreAt now
      ∧ (ph.bind (fun p => lookupKey name p.scripts) = none →
          historyScore ph name now = 0) := by
  refine ⟨scoreAt_eq_spec h now, ?_, ?_, ?_⟩
  · intro hd
    simp only [specRecency, hd]
    norm_num
  · rw [scoreAt_eq_spec h now]
    have hr := specRecency_nonneg now h.lastRun
    have hn : (0 : ℚ) ≤ ((min h.count 100 : ℕ) : ℚ) / 100 := by positivity
    nlinarith
  · intro hnone
    simp [historyScore, hnone]

theorem claim5_witness :
    specRecency (30 * 86400) 0 = 0 ∧ historyScore none ['d'] 0 = 0 :=
  ⟨(claim5_score_formula ⟨5, 0, none⟩ (30 * 86400) none ['d']).2.1 (by decide),
   (claim5_score_formula ⟨5, 0, none⟩ 0 none ['d']).2.2.2 rfl⟩

/-! ## Claim C10 — `record_run` frame conditions -/

theorem lookupKey_updateFirst_ne {V : Type} (l : List (Str × V)) (k q : Str) (f : V → V)
    (hq : q ≠ k) : lookupKey q (updateFirst l k f) = lookupKey q l := by
  induction l with
  | nil => rfl
  | cons p rest ih =>
    simp only [updateFirst]
    by_cases hp : (p.1 == k) = true
    · rw [if_pos hp]
      have hp2 : p.1 = k := by simpa using hp
      have h1 : (p.1 == q) = false := by
        simp [hp2]
        exact fun hh => hq hh.symm
      simp [lookupKey, h1]
    · rw [if_neg hp]
      simp only [lookupKey, ih]

theorem lookupKey_append_one_ne {V : Type} (l : List (Str × V)) (k q : Str) (d : V)
    (hq : q ≠ k) : lookupKey q (l ++ [(k, d)]) = lookupKey q l := by
  induction l with
  | nil =>
    have h1 : (k == q) = false := by
      simp
      exact fun hh => hq hh.symm
    simp [lookupKey, h1]
  | cons p rest ih =>
    simp only [List.cons_append, lookupKey]
    split
    · rfl
    · exact ih

theorem lookupKey_entryUpsert_ne {V : Type} (l : List (Str × V)) (k q : Str) (f : V → V)
    (d : V) (hq : q ≠ k) : lookupKey q (entryUpsert l k f d) = lookupKey q l := by
  unfold entryUpsert
  split
  · exact lookupKey_updateFirst_ne l k q f hq
  · exact lookupKey_append_one_ne l k q d hq

theorem lookupKey_updateFirst_self {V : Type} (l : List (Str × V)) (k : Str) (f : V → V) :
    lookupKey k (updateFirst l k f) = (lookupKey k l).map f := by
  induction l with
  | nil => rfl
  | cons p rest ih =>
    simp only [updateFirst]
    by_cases hp : (p.1 == k) = true
    · rw [if_pos hp]
      simp [lookupKey, hp]
    · rw [if_neg hp]
      have hp2 : (p.1 == k) = false := by revert hp; cases (p.1 == k) <;> simp
      simp [lookupKey, hp2, ih]

theorem lookupKey_isSome_of_any {V : Type} (l : List (Str × V)) (k : Str)
    (h : l.any (fun p => p.1 == k) = true) : ∃ v, lookupKey k l = some v := by
  induction l with
  | nil => simp at h
  | cons p rest ih =>
    by_cases hp : (p.1 == k) = true
    · exact ⟨p.2, by simp [lookupKey, hp]⟩
    · have hp2 : (p.1 == k) = false := by revert hp; cases (p.1 == k) <;> simp
      simp only [List.any_cons, hp2, Bool.false_or] at h
      obtain ⟨v, hv⟩ := ih h
      exact ⟨v, by simp [lookupKey, hp2, hv]⟩

theorem lookupKey_append_one_self {V : Type} (l : List (Str × V)) (k : Str) (d : V)
    (h : lookupKey k l = none) : lookupKey k (l ++ [(k, d)]) = some d := by
  induction l with
  | nil => simp [lookupKey]
  | cons p rest ih =>
    by_cases hp : (p.1 == k) = true
    · simp [lookupKey, hp] at h
    · have hp2 : (p.1 == k) = false := by revert hp; cases (p.1 == k) <;> simp
      simp only [lookupKey, hp2] at h
      simp only [List.cons_append, lookupKey, hp2]
      simp only [Bool.false_eq_true, if_false] at h ⊢
      exact ih h

theorem lookupKey_none_of_not_any {V : Type} (l : List (Str × V)) (k : Str)
    (h : l.any (fun p => p.1 == k) = false) : lookupKey k l = none := by
  induction l with
  | nil => rfl
  | cons p rest ih =>
    simp only [List.any_cons, Bool.or_eq_false_iff] at h
    simp [lookupKey, h.1, ih h.2]

theorem lookupKey_entryUpsert_self {V : Type} (l : List (Str × V)) (k : Str) (f : V → V)
    (d : V) :
    lookupKey k (entryUpsert l k f d) = some (((lookupKey k l).map f).getD d) := by
  unfold entryUpsert
  split
  · rename_i hany
    obtain ⟨v, hv⟩ := lookupKey_isSome_of_any l k hany
    rw [lookupKey_updateFirst_self, hv]
    rfl
  · rename_i hany
    have hnone := lookupKey_none_of_not_any l k (Bool.eq_false_iff.mpr hany)
    rw [hnone, lookupKey_append_one_self l k d hnone]
    rfl

/-- Claim C10: `record_run(project, script, args)` changes only the project's
entry — within it only the script's `ScriptHistory` plus `last_script` and
`last_run` — and leaves the version, every other project and every other
script untouched. -/
theorem claim10_record_run_frame (h : History) (dir script : Str) (args : Option Str)
    (now : Int) :
    (h.recordRun dir script args now).version = h.version
    ∧ (∀ q : Str, q ≠ dir →
        lookupKey q (h.recordRun dir script args now).projects = lookupKey q h.projects)
    ∧ lookupKey dir (h.recordRun dir script args now).projects =
        some (((lookupKey dir h.projects).getD (ProjectHistory.empty now)).recordRun
          script args now)
    ∧ (∀ (ph : ProjectHistory) (s : Str), s ≠ script →
        lookupKey s (ph.recordRun script args now).scripts = lookupKey s ph.scripts) := by
  refine ⟨rfl, ?_, ?_, ?_⟩
  · intro q hqd
    exact lookupKey_entryUpsert_ne h.projects dir q _ _ hqd
  · rw [show (h.recordRun dir script args now).projects =
        entryUpsert h.projects dir (fun ph => ph.recordRun script args now)
          ((ProjectHistory.empty now).recordRun script args now) from rfl]
    rw [lookupKey_entryUpsert_self]
    cases hl : lookupKey dir h.projects <;> simp [hl]
  · intro ph s hs
    exact lookupKey_entryUpsert_ne ph.scripts script s _ _ hs

theorem claim10_witness :
    lookupKey ['b'] ((History.mk 1 [(['p'], ProjectHistory.mk none 0 [(['b'], ⟨2, 0, none⟩)])]).recordRun
        ['q'] ['d'] none 5).projects =
      lookupKey ['b'] (History.mk 1 [(['p'], ProjectHistory.mk none 0 [(['b'], ⟨2, 0, none⟩)])]).projects
    ∧ lookupKey ['b'] ((ProjectHistory.mk none 0 [(['b'], ⟨2, 0, none⟩)]).recordRun
        ['d'] none 5).scripts =
      lookupKey ['b'] (ProjectHistory.mk none 0 [(['b'], ⟨2, 0, none⟩)]).scripts :=
  ⟨(claim10_record_run_frame (History.mk 1 [(['p'], ProjectHistory.mk none 0 [(['b'], ⟨2, 0, none⟩)])])
      ['q'] ['d'] none 5).2.1 ['b'] (by decide),
   (claim10_record_run_frame (History.mk 1 []) ['q'] ['d'] none 5).2.2.2
      (ProjectHistory.mk none 0 [(['b'], ⟨2, 0, none⟩)]) ['b'] (by decide)⟩

/-! ## Claim C6 — exclude-pattern semantics

The single-`*` branch of `matches_pattern` tests `starts_with(prefix) &&
ends_with(suffix)` without consuming: when the prefix and suffix overlap
(name shorter than prefix + suffix), the pattern still matches even though
no decomposition `prefix ++ middle ++ suffix` exists. -/

theorem splitStar_starfree (s : Str) (hs : s.contains '*' = false) : splitStar s = [s] := by
  induction s with
  | nil => rfl
  | cons c rest ih =>
    simp only [List.contains_cons, Bool.or_eq_false_iff] at hs
    have hc : ¬ c = '*' := by
      intro hcc
      simp [hcc] at hs
    rw [splitStar, if_neg hc, ih hs.2]

theorem splitStar_one_star (pre suf : Str) (hpre : pre.contains '*' = false)
    (hsuf : suf.contains '*' = false) :
    splitStar (pre ++ '*' :: suf) = [pre, suf] := by
  induction pre with
  | nil =>
    simp only [List.nil_append, splitStar, splitStar_starfree suf hsuf]
    simp
  | cons c pre2 ih =>
    simp only [List.contains_cons, Bool.or_eq_false_iff] at hpre
    have hc : ¬ c = '*' := by
      intro hcc
      simp [hcc] at hpre
    simp only [List.cons_append, splitStar, if_neg hc, List.append_eq]
    rw [ih hpre.2]

theorem contains_star_mid (pre suf : Str) : (pre ++ '*' :: suf).contains '*' = true := by
  induction pre with
  | nil => simp [List.contains_cons]
  | cons c pre2 ih => simp [List.contains_cons, ih]

theorem matchesPattern_one_star (name pre suf : Str) (hpre : pre.contains '*' = false)
    (hsuf : suf.contains '*' = false) :
    matchesPattern name (pre ++ '*' :: suf) =
      (pre.isPrefixOf name && suf.isSuffixOf name) := by
  unfold matchesPattern
  rw [if_neg (show ¬ ¬ ((pre ++ '*' :: suf).contains '*' = true) by
    rw [contains_star_mid pre suf]; simp)]
  rw [splitStar_one_star pre suf hpre hsuf]

theorem matchesPattern_no_star (name q : Str) (hq : q.contains '*' = false) :
    matchesPattern name q = (name == q) := by
  unfold matchesPattern
  rw [if_pos (show ¬ (q.contains '*' = true) by rw [hq]; simp)]

theorem mem_withoutMatching_iff (scripts : List Script) (s : Script) (p : Str)
    (hs : s ∈ scripts) :
    (s ∉ withoutMatching scripts [p] ↔ matchesPattern s.name p = true) := by
  unfold withoutMatching
  rw [if_neg (by simp)]
  constructor
  · intro hnot
    by_contra hm
    exact hnot (List.mem_filter.mpr ⟨hs, by simp [matchesAnyPattern, hm]⟩)
  · intro hm hmem
    have := (List.mem_filter.mp hmem).2
    simp [matchesAnyPattern, hm] at this

/-- Claim C6 (amended): with a single-`*` pattern, `without_matching` omits a
script iff its name starts with the pattern's prefix AND ends with its suffix
— the prefix and suffix may overlap inside the name, so this is weaker than
requiring a decomposition `prefix ++ middle ++ suffix`; a pattern with no `*`
omits exactly the script named literally by it. -/
theorem claim6_pattern_semantics (scripts : List Script) (s : Script) (pre suf q : Str)
    (hpre : pre.contains '*' = false) (hsuf : suf.contains '*' = false)
    (hq : q.contains '*' = false) (hs : s ∈ scripts) :
    (s ∉ withoutMatching scripts [pre ++ '*' :: suf] ↔
      ((∃ t, pre ++ t = s.name) ∧ (∃ t, t ++ suf = s.name)))
    ∧ (s ∉ withoutMatching scripts [q] ↔ s.name = q) := by
  constructor
  · rw [mem_withoutMatching_iff scripts s _ hs,
        matchesPattern_one_star s.name pre suf hpre hsuf]
    rw [Bool.and_eq_true, List.isPrefixOf_iff_prefix, List.isSuffixOf_iff_suffix]
    rfl
  · rw [mem_withoutMatching_iff scripts s _ hs, matchesPattern_no_star s.name q hq]
    simp

/-- Claim C6 counterexample: the name `"aba"` is omitted by the pattern
`"ab*ba"` although it admits no decomposition `"ab" ++ middle ++ "ba"` —
`starts_with`/`ends_with` accept the overlap. -/
theorem claim6_counterexample :
    withoutMatching [⟨['a', 'b', 'a'], [], none⟩] [['a', 'b', '*', 'b', 'a']] = []
    ∧ ¬ ∃ mid : Str, ['a', 'b', 'a'] = ['a', 'b'] ++ mid ++ ['b', 'a'] := by
  constructor
  · decide
  · rintro ⟨mid, hmid⟩
    have := congrArg List.length hmid
    simp [List.length_append] at this

theorem claim6_witness :
    ((⟨['d', 'e', 'v'], [], none⟩ : Script) ∉
        withoutMatching [⟨['d', 'e', 'v'], [], none⟩] [['d', '*', 'v']] ↔
      ((∃ t, ['d'] ++ t = ['d', 'e', 'v']) ∧ (∃ t, t ++ ['v'] = ['d', 'e', 'v'])))
    ∧ ((⟨['d', 'e', 'v'], [], none⟩ : Script) ∉
        withoutMatching [⟨['d', 'e', 'v'], [], none⟩] [['d', 'e', 'v']] ↔
      (['d', 'e', 'v'] : Str) = ['d', 'e', 'v']) :=
  claim6_pattern_semantics [⟨['d', 'e', 'v'], [], none⟩] ⟨['d', 'e', 'v'], [], none⟩
    ['d'] ['v'] ['d', 'e', 'v'] (by decide) (by decide) (by decide) (by decide)

/-! ## Claim C7 — `Ctrl+C` quits except in text-input modes -/

theorem shouldQuit_updateVisibleScripts (m : Matcher) (now : Int) (b : App) :
    (b.updateVisibleScripts m now).shouldQuit = b.shouldQuit := by
  simp only [App.updateVisibleScripts]
  split <;> rfl

/-- Claim C7: `Ctrl+C` sets `should_quit` in every mode except `Filter` and
`Args`; in those it leaves `should_quit` unchanged and is handled as the
printable character `c` appended to the query / args buffer. -/
theorem claim7_ctrl_c (m : Matcher) (now : Int) (a : App) :
    (isTextInputMode a.mode = false →
      handleKey m now a ⟨KeyCode.Char 'c', KeyModifiers.control⟩ = a.quit ∧
      (handleKey m now a ⟨KeyCode.Char 'c', KeyModifiers.control⟩).shouldQuit = true)
    ∧ (∀ q : Str, a.mode = AppMode.Filter q →
        handleKey m now a ⟨KeyCode.Char 'c', KeyModifiers.control⟩ =
          a.setFilter m now (q ++ ['c']) ∧
        (handleKey m now a ⟨KeyCode.Char 'c', KeyModifiers.control⟩).shouldQuit =
          a.shouldQuit)
    ∧ (∀ (i : Nat) (inp : Str), a.mode = AppMode.Args i inp →
        handleKey m now a ⟨KeyCode.Char 'c', KeyModifiers.control⟩ =
          a.setMode (AppMode.Args i (inp ++ ['c'])) ∧
        (handleKey m now a ⟨KeyCode.Char 'c', KeyModifiers.control⟩).shouldQuit =
          a.shouldQuit) := by
  refine ⟨?_, ?_, ?_⟩
  · intro hmode
    have h1 : handleKey m now a ⟨KeyCode.Char 'c', KeyModifiers.control⟩ = a.quit := by
      unfold handleKey
      rw [if_pos ⟨rfl, rfl, hmode⟩]
    exact ⟨h1, by rw [h1]; rfl⟩
  · intro q hq
    have hmode : isTextInputMode a.mode = true := by rw [hq]; rfl
    have h1 : handleKey m now a ⟨KeyCode.Char 'c', KeyModifiers.control⟩ =
        a.setFilter m now (q ++ ['c']) := by
      unfold handleKey
      rw [if_neg (by simp [hmode])]
      rw [hq]
      show handleFilterMode m now a ⟨KeyCode.Char 'c', KeyModifiers.control⟩ q =
        a.setFilter m now (q ++ ['c'])
      unfold handleFilterMode
      show (if ('c'.isDigit ∧ 'c' ≠ '0' ∧ q = []) then a.runNumbered (digitToNat 'c')
        else a.setFilter m now (q ++ ['c'])) = a.setFilter m now (q ++ ['c'])
      rw [if_neg (by rintro ⟨hd, -, -⟩; revert hd; decide)]
    refine ⟨h1, ?_⟩
    rw [h1]
    exact shouldQuit_updateVisibleScripts m now _
  · intro i inp hq
    have hmode : isTextInputMode a.mode = true := by rw [hq]; rfl
    have h1 : handleKey m now a ⟨KeyCode.Char 'c', KeyModifiers.control⟩ =
        a.setMode (AppMode.Args i (inp ++ ['c'])) := by
      unfold handleKey
      rw [if_neg (by simp [hmode])]
      rw [hq]
      rfl
    exact ⟨h1, by rw [h1]; rfl⟩

theorem claim7_witness :
    handleKey noMatcher 0 baseApp ⟨KeyCode.Char 'c', KeyModifiers.control⟩ = baseApp.quit
    ∧ (handleKey noMatcher 0 baseApp ⟨KeyCode.Char 'c', KeyModifiers.control⟩).shouldQuit
        = true
    ∧ handleKey noMatcher 0 { baseApp with mode := AppMode.Filter ['x'] }
        ⟨KeyCode.Char 'c', KeyModifiers.control⟩ =
      App.setFilter noMatcher 0 { baseApp with mode := AppMode.Filter ['x'] } ['x', 'c'] := by
  refine ⟨?_, ?_, ?_⟩
  · exact ((claim7_ctrl_c noMatcher 0 baseApp).1 (by decide)).1
  · exact ((claim7_ctrl_c noMatcher 0 baseApp).1 (by decide)).2
  · exact (((claim7_ctrl_c noMatcher 0 { baseApp with mode := AppMode.Filter ['x'] }).2.1)
      ['x'] rfl).1

/-! ## Claim C9 — committing an empty multi-selection -/

/-- Claim C9: in `MultiSelect` mode, when no selected index is within the
bounds of `visible_indices` (in particular when the set is empty),
`run_multi_selected` returns `[]` and leaves the state — `script_to_run` and
`should_quit` included — unchanged; the run is committed only when at least
one selected index is still visible. -/
theorem claim9_empty_multiselect (a : App) (sel : List Nat)
    (hmode : a.mode = AppMode.MultiSelect sel) :
    ((∀ i ∈ sel, a.visibleIndices.length ≤ i) →
        (a.runMultiSelected).1 = [] ∧ (a.runMultiSelected).2 = a)
    ∧ ((a.runMultiSelected).1 ≠ [] → ∃ i ∈ sel, i < a.visibleIndices.length)
    ∧ (((a.runMultiSelected).2.shouldQuit ≠ a.shouldQuit ∨
        (a.runMultiSelected).2.scriptToRun ≠ a.scriptToRun) →
        ∃ i ∈ sel, i < a.visibleIndices.length) := by
  have hruns : a.multiRuns =
      sel.filterMap (fun idx => (a.getVisibleScript idx).map (fun s =>
        { script := s, args := none, workspace := a.getWorkspaceInfo.1,
          workspacePath := a.getWorkspaceInfo.2 })) := by
    unfold App.multiRuns
    rw [hmode]
  have hvis : ∀ r : ScriptRun, r ∈ a.multiRuns → ∃ i ∈ sel, i < a.visibleIndices.length := by
    intro r hr
    rw [hruns] at hr
    obtain ⟨i, hi, hfi⟩ := List.mem_filterMap.mp hr
    refine ⟨i, hi, ?_⟩
    cases hv : a.visibleIndices.get? i with
    | none =>
      rw [show a.getVisibleScript i = none by
        unfold App.getVisibleScript; rw [hv]; rfl] at hfi
      exact absurd hfi (by simp)
    | some v =>
      exact (List.get?_eq_some.mp hv).1
  refine ⟨?_, ?_, ?_⟩
  · intro hout
    have hnil : a.multiRuns = [] := by
      rw [hruns, List.filterMap_eq_nil_iff]
      intro i hi
      rw [show a.getVisibleScript i = none by
        unfold App.getVisibleScript
        rw [List.get?_eq_none.mpr (hout i hi)]
        rfl]
      rfl
    unfold App.runMultiSelected
    rw [if_pos hnil]
    exact ⟨hnil, rfl⟩
  · intro hne
    have hne2 : a.multiRuns ≠ [] := by
      intro hc
      apply hne
      unfold App.runMultiSelected
      rw [if_pos hc]
      exact hc
    obtain ⟨r, hr⟩ := List.exists_mem_of_ne_nil _ hne2
    exact hvis r hr
  · intro hchanged
    by_cases hnil : a.multiRuns = []
    · exfalso
      have hsnd : (a.runMultiSelected).2 = a := by
        unfold App.runMultiSelected
        rw [if_pos hnil]
      rw [hsnd] at hchanged
      rcases hchanged with hc | hc <;> exact hc rfl
    · obtain ⟨r, hr⟩ := List.exists_mem_of_ne_nil _ hnil
      exact hvis r hr

theorem claim9_witness :
    (({ baseApp with mode := AppMode.MultiSelect [3, 4] } : App).runMultiSelected).1 = []
    ∧ (({ baseApp with mode := AppMode.MultiSelect [3, 4] } : App).runMultiSelected).2 =
      { baseApp with mode := AppMode.MultiSelect [3, 4] } :=
  (claim9_empty_multiselect { baseApp with mode := AppMode.MultiSelect [3, 4] } [3, 4]
    rfl).1 (by decide)

/-! ## Claim C4 — `get_sorted_by_recent_at` is an ordered permutation -/

theorem getSortedByRecentAt_perm (hist : History) (projectDir : Str)
    (scripts : List Script) (now : Int) :
    (hist.getSortedByRecentAt projectDir scripts now).Perm scripts := by
  simp only [History.getSortedByRecentAt]
  have h1 := (List.perm_insertionSort scoredLE
    (scripts.map (fun s =>
      (s, historyScore (lookupKey projectDir hist.projects) s.name now)))).map
    (fun p : Script × ℚ => p.1)
  refine h1.trans ?_
  rw [List.map_map]
  rw [show ((fun p : Script × ℚ => p.1) ∘ fun s =>
    (s, historyScore (lookupKey projectDir hist.projects) s.name now)) = fun s => s from rfl]
  rw [List.map_id']

theorem getSortedByRecentAt_pairwise (hist : History) (projectDir : Str)
    (scripts : List Script) (now : Int) :
    (hist.getSortedByRecentAt projectDir scripts now).Pairwise (fun s t =>
      histScoreOf hist projectDir t.name now < histScoreOf hist projectDir s.name now ∨
      (histScoreOf hist projectDir s.name now = histScoreOf hist projectDir t.name now ∧
        s.name ≤ t.name)) := by
  simp only [History.getSortedByRecentAt]
  set ph := lookupKey projectDir hist.projects with hph
  set scored := scripts.map (fun s => (s, historyScore ph s.name now)) with hscored
  have hsorted : List.Sorted scoredLE (List.insertionSort scoredLE scored) :=
    List.sorted_insertionSort scoredLE scored
  have hmemscore : ∀ x ∈ List.insertionSort scoredLE scored,
      x.2 = historyScore ph x.1.name now := by
    intro x hx
    have hx2 : x ∈ scored := ((List.perm_insertionSort scoredLE scored).mem_iff).mp hx
    obtain ⟨s, _, rfl⟩ := List.mem_map.mp hx2
    rfl
  have hpw : (List.insertionSort scoredLE scored).Pairwise (fun x y : Script × ℚ =>
      historyScore ph y.1.name now < historyScore ph x.1.name now ∨
      (historyScore ph x.1.name now = historyScore ph y.1.name now ∧
        x.1.name ≤ y.1.name)) := by
    refine List.Pairwise.imp_of_mem ?_ hsorted
    intro x y hx hy hr
    rw [← hmemscore x hx, ← hmemscore y hy]
    rcases hr with hlt | ⟨heq, hle⟩
    · exact Or.inl (by simpa using hlt)
    · exact Or.inr ⟨by simpa using heq, hle⟩
  exact List.Pairwise.map (fun p : Script × ℚ => p.1) (fun a b hab => hab) hpw

/-- Claim C4: `sorted_by_recent` returns exactly the input scripts as a
permutation ordered by descending recency-frequency score with ties broken by
ascending name; as a pure function of its inputs it is deterministic. -/
theorem claim4_sorted_by_recent (hist : History) (projectDir : Str)
    (scripts : List Script) (now : Int) :
    (hist.getSortedByRecentAt projectDir scripts now).Perm scripts
    ∧ (hist.getSortedByRecentAt projectDir scripts now).Pairwise (fun s t =>
        histScoreOf hist projectDir t.name now < histScoreOf hist projectDir s.name now ∨
        (histScoreOf hist projectDir s.name now = histScoreOf hist projectDir t.name now ∧
          s.name ≤ t.name)) :=
  ⟨getSortedByRecentAt_perm hist projectDir scripts now,
   getSortedByRecentAt_pairwise hist projectDir scripts now⟩

/-! ## Claim C8 — cleanup idempotence -/

theorem removeKeys_cons {V : Type} (l : List (Str × V)) (k : Str) (ks : List Str) :
    removeKeys l (k :: ks) = removeKeys (l.eraseP (fun p => p.1 == k)) ks := rfl

theorem removeKeys_sublist {V : Type} (l : List (Str × V)) (ks : List Str) :
    (removeKeys l ks).Sublist l := by
  induction ks generalizing l with
  | nil => exact List.Sublist.refl l
  | cons k ks ih =>
    rw [removeKeys_cons]
    exact (ih _).trans (List.eraseP_sublist l)

theorem removeKeys_length {V : Type} (l : List (Str × V)) (ks : List Str)
    (hl : (l.map (fun p => p.1)).Nodup) (hks : ks.Nodup)
    (hmem : ∀ k ∈ ks, k ∈ l.map (fun p => p.1)) :
    (removeKeys l ks).length = l.length - ks.length := by
  induction ks generalizing l with
  | nil => simp [removeKeys]
  | cons k ks ih =>
    rw [removeKeys_cons]
    have hkmem : k ∈ l.map (fun p => p.1) := hmem k (List.mem_cons_self k ks)
    obtain ⟨p, hp, hp1⟩ := List.mem_map.mp hkmem
    have hlen : (l.eraseP (fun p => p.1 == k)).length = l.length - 1 :=
      List.length_eraseP_of_mem hp (by simp [hp1])
    have hkeys : (l.eraseP (fun p => p.1 == k)).map (fun p => p.1)
        = (l.map (fun p => p.1)).eraseP (fun x => x == k) := by
      rw [List.eraseP_map]
      rfl
    have herase : (l.map (fun p => p.1)).eraseP (fun x => x == k)
        = (l.map (fun p => p.1)).erase k := by
      rw [List.erase_eq_eraseP]
      congr 1
      funext x
      by_cases hx : x = k
      · simp [hx]
      · simp [hx, Ne.symm hx]
    have hnodup2 : ((l.eraseP (fun p => p.1 == k)).map (fun p => p.1)).Nodup := by
      rw [hkeys]
      exact List.Nodup.sublist (List.eraseP_sublist _) hl
    have hks2 : ks.Nodup := (List.nodup_cons.mp hks).2
    have hknotin : k ∉ ks := (List.nodup_cons.mp hks).1
    have hmem2 : ∀ k2 ∈ ks, k2 ∈ (l.eraseP (fun p => p.1 == k)).map (fun p => p.1) := by
      intro k2 hk2
      rw [hkeys, herase]
      exact (List.mem_erase_of_ne (fun hc => hknotin (by rw [← hc]; exact hk2))).mpr
        (hmem k2 (List.mem_cons_of_mem k hk2))
    rw [ih _ hnodup2 hks2 hmem2, hlen]
    simp only [List.length_cons]
    omega

/-- Length after the eviction pattern: sort, take the oldest
`len - maxN` keys, remove them — exactly `maxN` entries remain. -/
theorem removeKeys_take_sorted_length {V : Type} (l : List (Str × V))
    (r : (Str × V) → (Str × V) → Prop) [DecidableRel r] (maxN : Nat)
    (hn : (l.map (fun p => p.1)).Nodup) (hlt : maxN < l.length) :
    (removeKeys l
        (((List.insertionSort r l).take (l.length - maxN)).map (fun p => p.1))).length
      = maxN := by
  have hperm : (List.insertionSort r l).Perm l := List.perm_insertionSort r l
  have hkeysperm : ((List.insertionSort r l).map (fun p => p.1)).Perm
      (l.map (fun p => p.1)) := hperm.map _
  have hsortnodup : ((List.insertionSort r l).map (fun p => p.1)).Nodup :=
    hkeysperm.symm.nodup hn
  have htake : ((List.insertionSort r l).take (l.length - maxN)).map (fun p => p.1)
      = ((List.insertionSort r l).map (fun p => p.1)).take (l.length - maxN) := by
    rw [List.map_take]
  have hksnodup : (((List.insertionSort r l).take (l.length - maxN)).map
      (fun p => p.1)).Nodup := by
    rw [htake]
    exact List.Nodup.sublist (List.take_sublist _ _) hsortnodup
  have hksmem : ∀ k ∈ ((List.insertionSort r l).take (l.length - maxN)).map
      (fun p => p.1), k ∈ l.map (fun p => p.1) := by
    intro k hk
    rw [htake] at hk
    exact hkeysperm.mem_iff.mp (List.mem_of_mem_take hk)
  have hkslen : (((List.insertionSort r l).take (l.length - maxN)).map
      (fun p => p.1)).length = l.length - maxN := by
    rw [List.length_map, List.length_take, hperm.length_eq]
    omega
  rw [removeKeys_length l _ hn hksnodup hksmem, hkslen]
  omega

theorem cleanup_id_of_le (ph : ProjectHistory) (maxS : Nat)
    (h : ph.scripts.length ≤ maxS) : ph.cleanup maxS = ph := by
  unfold ProjectHistory.cleanup
  rw [if_pos h]

theorem cleanup_scripts_le (ph : ProjectHistory) (maxS : Nat)
    (hn : (ph.scripts.map (fun p => p.1)).Nodup) :
    (ph.cleanup maxS).scripts.length ≤ maxS := by
  unfold ProjectHistory.cleanup
  split
  · rename_i hle
    exact hle
  · rename_i hgt
    push_neg at hgt
    have := removeKeys_take_sorted_length ph.scripts
      (keyLE (fun p : Str × ScriptHistory => p.2.lastRun)) maxS hn hgt
    simp only [this]
    exact le_rfl

theorem cleanupWithLimits_scripts_le (h : History) (mP mS : Nat)
    (hskeys : ∀ p ∈ h.projects, (p.2.scripts.map (fun q => q.1)).Nodup) :
    ∀ p ∈ (h.cleanupWithLimits mP mS).projects, p.2.scripts.length ≤ mS := by
  have hmap : ∀ p ∈ h.projects.map (fun p => (p.1, p.2.cleanup mS)),
      p.2.scripts.length ≤ mS := by
    intro p hp
    obtain ⟨q, hq, rfl⟩ := List.mem_map.mp hp
    exact cleanup_scripts_le q.2 mS (hskeys q hq)
  simp only [History.cleanupWithLimits]
  split
  · exact hmap
  · intro p hp
    exact hmap p ((removeKeys_sublist _ _).mem hp)

theorem cleanupWithLimits_length_le (h : History) (mP mS : Nat)
    (hkeys : (h.projects.map (fun p => p.1)).Nodup) :
    (h.cleanupWithLimits mP mS).projects.length ≤ mP := by
  have hkeys2 : ((h.projects.map (fun p => (p.1, p.2.cleanup mS))).map
      (fun p => p.1)).Nodup := by
    rw [List.map_map]
    exact hkeys
  simp only [History.cleanupWithLimits]
  split
  · rename_i hle
    simpa using hle
  · rename_i hgt
    push_neg at hgt
    have hlen : (h.projects.map (fun p => (p.1, p.2.cleanup mS))).length = h.projects.length :=
      List.length_map _ _
    have := removeKeys_take_sorted_length (h.projects.map (fun p => (p.1, p.2.cleanup mS)))
      (keyLE (fun p : Str × ProjectHistory => p.2.lastRun)) mP hkeys2 (by simp at hgt ⊢; omega)
    simp only [this]
    exact le_rfl

theorem cleanupWithLimits_of_within (h : History) (mP mS : Nat)
    (h1 : ∀ p ∈ h.projects, p.2.scripts.length ≤ mS)
    (h2 : h.projects.length ≤ mP) :
    h.cleanupWithLimits mP mS = h := by
  have hproj : h.projects.map (fun p => (p.1, p.2.cleanup mS)) = h.projects := by
    conv_rhs => rw [← List.map_id h.projects]
    refine List.map_congr_left ?_
    intro p hp
    show (p.1, p.2.cleanup mS) = id p
    rw [cleanup_id_of_le p.2 mS (h1 p hp)]
    rfl
  simp only [History.cleanupWithLimits, hproj]
  rw [if_pos h2]

/-- Claim C8: `cleanup_with_limits` applied twice with the same limits equals
applying it once (key sets of the hash maps are duplicate-free). -/
theorem claim8_cleanup_idempotent (h : History) (mP mS : Nat)
    (hkeys : (h.projects.map (fun p => p.1)).Nodup)
    (hskeys : ∀ p ∈ h.projects, (p.2.scripts.map (fun q => q.1)).Nodup) :
    (h.cleanupWithLimits mP mS).cleanupWithLimits mP mS = h.cleanupWithLimits mP mS :=
  cleanupWithLimits_of_within _ mP mS
    (cleanupWithLimits_scripts_le h mP mS hskeys)
    (cleanupWithLimits_length_le h mP mS hkeys)

theorem claim8_witness :
    ((History.mk 1 [(['p'], ProjectHistory.mk none 0 [(['a'], ⟨1, 0, none⟩),
        (['b'], ⟨1, 5, none⟩)]), (['q'], ProjectHistory.mk none 9 [])]).cleanupWithLimits 1
        1).cleanupWithLimits 1 1 =
      (History.mk 1 [(['p'], ProjectHistory.mk none 0 [(['a'], ⟨1, 0, none⟩),
        (['b'], ⟨1, 5, none⟩)]), (['q'], ProjectHistory.mk none 9 [])]).cleanupWithLimits 1 1 :=
  claim8_cleanup_idempotent
    (History.mk 1 [(['p'], ProjectHistory.mk none 0 [(['a'], ⟨1, 0, none⟩),
      (['b'], ⟨1, 5, none⟩)]), (['q'], ProjectHistory.mk none 9 [])]) 1 1
    (by decide) (by decide)

/-! ## Claims C1/C3 — the visible-list projection -/

theorem filterMap_eq_map_of_some {α β : Type} (l : List α) (f : α → Option β) (g : α → β)
    (h : ∀ x ∈ l, f x = some (g x)) : l.filterMap f = l.map g := by
  induction l with
  | nil => rfl
  | cons x rest ih =>
    rw [List.filterMap_cons, h x (List.mem_cons_self x rest), List.map_cons,
      ih (fun y hy => h y (List.mem_cons_of_mem x hy))]

theorem findPos_name_eq (scripts : List Script) (hn : (scripts.map Script.name).Nodup) :
    ∀ (i : Nat) (s : Script), scripts.get? i = some s →
      findPos (fun sc => sc.name == s.name) scripts = some i := by
  induction scripts with
  | nil =>
    intro i s hs
    simp at hs
  | cons a rest ih =>
    intro i s hs
    rw [List.map_cons, List.nodup_cons] at hn
    cases i with
    | zero =>
      have ha : a = s := by
        have : some a = some s := hs
        exact Option.some.inj this
      subst ha
      unfold findPos
      rw [if_pos (by simp)]
    | succ i =>
      have hs2 : rest.get? i = some s := hs
      have hsmem : s ∈ rest := List.get?_mem hs2
      have hane : ¬ ((a.name == s.name) = true) := by
        have hmem2 : s.name ∈ rest.map Script.name := List.mem_map.mpr ⟨s, hsmem, rfl⟩
        have hnot : a.name ≠ s.name := fun hc => hn.1 (hc ▸ hmem2)
        simp [hnot]
      unfold findPos
      rw [if_neg hane, ih hn.2 i s hs2]
      rfl

theorem updateVisibleScripts_visibleIndices (m : Matcher) (now : Int) (a : App) :
    (a.updateVisibleScripts m now).visibleIndices =
      a.sortIndices now (a.filteredIndices m) := by
  simp only [App.updateVisibleScripts]
  split <;> rfl

theorem owned_eq_map (a : App) (indices : List Nat)
    (hb : ∀ i ∈ indices, i < a.scripts.length) :
    indices.filterMap (fun i => a.scripts.get? i)
      = indices.map (fun i => (a.scripts.get? i).getD dummyScript) := by
  refine filterMap_eq_map_of_some indices _ _ ?_
  intro i hi
  rw [List.get?_eq_get (hb i hi)]
  rfl

theorem sortIndices_recent_eq (a : App) (now : Int) (indices : List Nat)
    (hrec : a.sortMode = SortMode.Recent) :
    a.sortIndices now indices =
      ((a.history.getSortedByRecentAt a.projectPath
          (indices.filterMap (fun i => a.scripts.get? i)) now).filterMap
        (fun s => findPos (fun sc => sc.name == s.name) a.scripts)).filter
        (fun i => indices.contains i) := by
  unfold App.sortIndices
  rw [hrec]

theorem recent_sorted_mem_spec (a : App) (now : Int) (indices : List Nat)
    (hn : (a.scripts.map Script.name).Nodup)
    (_hb : ∀ i ∈ indices, i < a.scripts.length) :
    ∀ s ∈ a.history.getSortedByRecentAt a.projectPath
        (indices.filterMap (fun i => a.scripts.get? i)) now,
      ∃ i, i ∈ indices ∧ a.scripts.get? i = some s ∧
        findPos (fun sc => sc.name == s.name) a.scripts = some i := by
  intro s hs
  have hmem : s ∈ indices.filterMap (fun i => a.scripts.get? i) :=
    (getSortedByRecentAt_perm a.history a.projectPath _ now).mem_iff.mp hs
  obtain ⟨i, hi, hgi⟩ := List.mem_filterMap.mp hmem
  exact ⟨i, hi, hgi, findPos_name_eq a.scripts hn i s hgi⟩

theorem recent_filterMap_as_map (a : App) (now : Int) (indices : List Nat)
    (hn : (a.scripts.map Script.name).Nodup)
    (hb : ∀ i ∈ indices, i < a.scripts.length) :
    (a.history.getSortedByRecentAt a.projectPath
        (indices.filterMap (fun i => a.scripts.get? i)) now).filterMap
      (fun s => findPos (fun sc => sc.name == s.name) a.scripts)
    = (a.history.getSortedByRecentAt a.projectPath
        (indices.filterMap (fun i => a.scripts.get? i)) now).map
      (fun s => (findPos (fun sc => sc.name == s.name) a.scripts).getD 0) := by
  refine filterMap_eq_map_of_some _ _ _ ?_
  intro s hs
  obtain ⟨i, _, _, hfind⟩ := recent_sorted_mem_spec a now indices hn hb s hs
  rw [hfind]
  rfl

theorem recent_map_idx_owned (a : App) (indices : List Nat)
    (hn : (a.scripts.map Script.name).Nodup)
    (hb : ∀ i ∈ indices, i < a.scripts.length) :
    (indices.filterMap (fun i => a.scripts.get? i)).map
      (fun s => (findPos (fun sc => sc.name == s.name) a.scripts).getD 0) = indices := by
  rw [owned_eq_map a indices hb, List.map_map]
  conv_rhs => rw [← List.map_id' indices]
  refine List.map_congr_left ?_
  intro i hi
  have hget : a.scripts.get? i = some ((a.scripts.get? i).getD dummyScript) := by
    rw [List.get?_eq_get (hb i hi)]
    rfl
  have hfind := findPos_name_eq a.scripts hn i _ hget
  show (findPos (fun sc => sc.name == ((a.scripts.get? i).getD dummyScript).name)
    a.scripts).getD 0 = i
  rw [hfind]
  rfl

theorem sortIndices_perm (a : App) (now : Int) (indices : List Nat)
    (hn : (a.scripts.map Script.name).Nodup)
    (hb : ∀ i ∈ indices, i < a.scripts.length) :
    (a.sortIndices now indices).Perm indices := by
  cases hmode : a.sortMode with
  | Alpha =>
    unfold App.sortIndices
    rw [hmode]
    exact List.perm_insertionSort _ indices
  | Category =>
    unfold App.sortIndices
    rw [hmode]
    exact List.perm_insertionSort _ indices
  | Recent =>
    rw [sortIndices_recent_eq a now indices hmode,
      recent_filterMap_as_map a now indices hn hb]
    have hperm1 : (a.history.getSortedByRecentAt a.projectPath
        (indices.filterMap (fun i => a.scripts.get? i)) now).Perm
        (indices.filterMap (fun i => a.scripts.get? i)) :=
      getSortedByRecentAt_perm a.history a.projectPath _ now
    have hperm2 : ((a.history.getSortedByRecentAt a.projectPath
        (indices.filterMap (fun i => a.scripts.get? i)) now).map
        (fun s => (findPos (fun sc => sc.name == s.name) a.scripts).getD 0)).Perm indices := by
      have := hperm1.map (fun s => (findPos (fun sc => sc.name == s.name) a.scripts).getD 0)
      rw [recent_map_idx_owned a indices hn hb] at this
      exact this
    refine (hperm2.filter _).trans ?_
    rw [List.filter_eq_self.mpr ?_]
    intro i hi
    exact List.elem_iff.mpr hi

theorem sortIndices_recent_pairwise (a : App) (now : Int) (indices : List Nat)
    (hn : (a.scripts.map Script.name).Nodup)
    (hb : ∀ i ∈ indices, i < a.scripts.length)
    (hrec : a.sortMode = SortMode.Recent) :
    (a.sortIndices now indices).Pairwise (fun i j =>
      scoreOfIdx a now j < scoreOfIdx a now i ∨
      (scoreOfIdx a now i = scoreOfIdx a now j ∧
        nameAt a.scripts i ≤ nameAt a.scripts j)) := by
  rw [sortIndices_recent_eq a now indices hrec,
    recent_filterMap_as_map a now indices hn hb]
  refine List.Pairwise.sublist (List.filter_sublist _) ?_
  have hpw0 := getSortedByRecentAt_pairwise a.history a.projectPath
    (indices.filterMap (fun i => a.scripts.get? i)) now
  have hname : ∀ s ∈ a.history.getSortedByRecentAt a.projectPath
      (indices.filterMap (fun i => a.scripts.get? i)) now,
      nameAt a.scripts ((findPos (fun sc => sc.name == s.name) a.scripts).getD 0) =
        s.name := by
    intro s hs
    obtain ⟨i, _, hgi, hfind⟩ := recent_sorted_mem_spec a now indices hn hb s hs
    rw [hfind]
    show nameAt a.scripts i = s.name
    unfold nameAt
    rw [hgi]
    rfl
  have hpw2 : (a.history.getSortedByRecentAt a.projectPath
      (indices.filterMap (fun i => a.scripts.get? i)) now).Pairwise (fun s t =>
      scoreOfIdx a now ((findPos (fun sc => sc.name == t.name) a.scripts).getD 0) <
        scoreOfIdx a now ((findPos (fun sc => sc.name == s.name) a.scripts).getD 0) ∨
      (scoreOfIdx a now ((findPos (fun sc => sc.name == s.name) a.scripts).getD 0) =
          scoreOfIdx a now ((findPos (fun sc => sc.name == t.name) a.scripts).getD 0) ∧
        nameAt a.scripts ((findPos (fun sc => sc.name == s.name) a.scripts).getD 0) ≤
          nameAt a.scripts ((findPos (fun sc => sc.name == t.name) a.scripts).getD 0))) := by
    refine List.Pairwise.imp_of_mem ?_ hpw0
    intro s t hsmem htmem hr
    have hsc : scoreOfIdx a now ((findPos (fun sc => sc.name == s.name) a.scripts).getD 0) =
        histScoreOf a.history a.projectPath s.name now := by
      unfold scoreOfIdx
      rw [hname s hsmem]
    have htc : scoreOfIdx a now ((findPos (fun sc => sc.name == t.name) a.scripts).getD 0) =
        histScoreOf a.history a.projectPath t.name now := by
      unfold scoreOfIdx
      rw [hname t htmem]
    rw [hsc, htc, hname s hsmem, hname t htmem]
    exact hr
  exact List.Pairwise.map _ (fun s t h => h) hpw2

theorem map_fst_filterMap_sublist {γ : Type} (l : List (Nat × γ)) (k : γ → Option Int) :
    ((l.filterMap (fun p => (k p.2).map (fun sc => (p.1, sc)))).map
      (fun q : Nat × Int => q.1)).Sublist (l.map (fun q => q.1)) := by
  induction l with
  | nil => exact List.Sublist.refl []
  | cons p rest ih =>
    rw [List.filterMap_cons]
    cases hk : k p.2 with
    | none =>
      simp only [Option.map_none', List.map_cons]
      exact List.Sublist.cons p.1 ih
    | some v =>
      simp only [Option.map_some', List.map_cons]
      exact List.Sublist.cons₂ p.1 ih

theorem filteredIndices_nodup_bounds (m : Matcher) (a : App) :
    (a.filteredIndices m).Nodup ∧ ∀ i ∈ a.filteredIndices m, i < a.scripts.length := by
  unfold App.filteredIndices
  split
  · exact ⟨List.nodup_range _, fun i hi => List.mem_range.mp hi⟩
  · rename_i hne
    have hfs : filterScripts m a.filterText a.scripts a.config.searchDescriptions =
        List.insertionSort (keyLE (fun p : Nat × Int => OrderDual.toDual p.2))
          (a.scripts.enum.filterMap (fun p =>
            (scriptMatchScore m a.config.searchDescriptions (lowerStr a.filterText)
              p.2).map (fun sc => (p.1, sc)))) := by
      unfold filterScripts
      rw [if_neg hne]
    rw [hfs]
    have hperm : (List.insertionSort (keyLE (fun p : Nat × Int => OrderDual.toDual p.2))
        (a.scripts.enum.filterMap (fun p =>
          (scriptMatchScore m a.config.searchDescriptions (lowerStr a.filterText)
            p.2).map (fun sc => (p.1, sc))))).Perm
        (a.scripts.enum.filterMap (fun p =>
          (scriptMatchScore m a.config.searchDescriptions (lowerStr a.filterText)
            p.2).map (fun sc => (p.1, sc)))) :=
      List.perm_insertionSort _ _
    have hpermmap := hperm.map (fun q : Nat × Int => q.1)
    have hsub := map_fst_filterMap_sublist a.scripts.enum
      (scriptMatchScore m a.config.searchDescriptions (lowerStr a.filterText))
    have henum : a.scripts.enum.map (fun q : Nat × Script => q.1) =
        List.range a.scripts.length := List.enum_map_fst a.scripts
    rw [henum] at hsub
    constructor
    · exact hpermmap.symm.nodup (List.Nodup.sublist hsub (List.nodup_range _))
    · intro i hi
      have hi2 := hpermmap.mem_iff.mp hi
      exact List.mem_range.mp (hsub.mem hi2)

/-- Claim C3: after every recomputation of the projection, `visible_indices`
is duplicate-free with every element a valid index into `scripts`, and with
an empty filter it is a permutation of `0..len(scripts)` for every sort mode
(script names are unique, per the store invariant). -/
theorem claim3_projection (m : Matcher) (now : Int) (a : App)
    (hn : (a.scripts.map Script.name).Nodup) :
    ((a.updateVisibleScripts m now).visibleIndices).Nodup
    ∧ (∀ i ∈ (a.updateVisibleScripts m now).visibleIndices, i < a.scripts.length)
    ∧ (a.filterText = [] →
        ((a.updateVisibleScripts m now).visibleIndices).Perm
          (List.range a.scripts.length)) := by
  rw [updateVisibleScripts_visibleIndices]
  obtain ⟨hnd, hbd⟩ := filteredIndices_nodup_bounds m a
  have hperm := sortIndices_perm a now (a.filteredIndices m) hn hbd
  refine ⟨hperm.symm.nodup hnd, fun i hi => hbd i (hperm.mem_iff.mp hi), ?_⟩
  intro he
  have hfe : a.filteredIndices m = List.range a.scripts.length := by
    unfold App.filteredIndices
    rw [if_pos he]
  rw [hfe] at hperm ⊢
  exact hperm

theorem claim3_witness :
    ((c3App.updateVisibleScripts noMatcher 0).visibleIndices).Nodup
    ∧ ((c3App.updateVisibleScripts noMatcher 0).visibleIndices).Perm (List.range 1) :=
  ⟨(claim3_projection noMatcher 0 c3App (by decide)).1,
   (claim3_projection noMatcher 0 c3App (by decide)).2.2 rfl⟩

/-! ## Claim C1 — fuzzy order is NOT the tiebreaker in Recent mode -/

/-- Claim C1 counterexample: with no history both filtered scripts score 0
and the fuzzy filter ranks index 0 (`"b"`, exact) before index 1 (`"ab"`),
but the projection orders them by ascending name — `[1, 0]` — reversing the
fuzzy order. -/
theorem claim1_counterexample : ¬ fuzzyTiebreakClaim cexMatcher 0 cexApp := by
  intro hcl
  have h := hcl (by decide) rfl 0 1 (by decide) (by decide) (by decide)
  have h1 : relOrder ((filterScripts cexMatcher cexApp.filterText cexApp.scripts
      cexApp.config.searchDescriptions).map (fun p => p.1)) 0 1 := by decide
  have h2 := h.mp h1
  have h3 : ¬ relOrder ((cexApp.updateVisibleScripts cexMatcher 0).visibleIndices) 0 1 := by
    decide
  exact h3 h2

/-- Claim C1 (amended): with a non-empty filter and `sort_mode == Recent`,
the projection orders the filtered candidates by descending history score
with ties broken by ascending script name — the fuzzy filter's
score-descending order only determines the candidate set, not the tie order. -/
theorem claim1_amended (m : Matcher) (now : Int) (a : App)
    (hn : (a.scripts.map Script.name).Nodup)
    (_hne : a.filterText ≠ []) (hrec : a.sortMode = SortMode.Recent) :
    ((a.updateVisibleScripts m now).visibleIndices).Pairwise (fun i j =>
      scoreOfIdx a now j < scoreOfIdx a now i ∨
      (scoreOfIdx a now i = scoreOfIdx a now j ∧
        nameAt a.scripts i ≤ nameAt a.scripts j)) := by
  rw [updateVisibleScripts_visibleIndices]
  exact sortIndices_recent_pairwise a now (a.filteredIndices m) hn
    (filteredIndices_nodup_bounds m a).2 hrec

theorem claim1_witness :
    ((cexApp.updateVisibleScripts cexMatcher 0).visibleIndices).Pairwise (fun i j =>
      scoreOfIdx cexApp 0 j < scoreOfIdx cexApp 0 i ∨
      (scoreOfIdx cexApp 0 i = scoreOfIdx cexApp 0 j ∧
        nameAt cexApp.scripts i ≤ nameAt cexApp.scripts j)) :=
  claim1_amended cexMatcher 0 cexApp (by decide) (by decide) rfl

/-! ## Claim C2 — the selection-cursor invariant

Per-operation lemmas: operations either leave `selected`/`visible_indices`
untouched, re-clamp via `update_visible_scripts`, or move within bounds. -/

theorem selInv_same (a b : App) (h : a.SelInv) (hsel : b.selected = a.selected)
    (hvis : b.visibleIndices = a.visibleIndices) : b.SelInv := by
  unfold App.SelInv at h ⊢
  rw [hsel, hvis]
  exact h

theorem selInv_updateVisibleScripts (m : Matcher) (now : Int) (a : App) :
    (a.updateVisibleScripts m now).SelInv := by
  simp only [App.updateVisibleScripts]
  split
  · unfold App.SelInv
    dsimp only
    omega
  · rename_i hlt
    unfold App.SelInv
    dsimp only
    omega

theorem selInv_withWorkspaces (m : Matcher) (now : Int) (scripts : List Script)
    (config : Config) (history : History) (projectName projectPath : Str) (runner : Runner)
    (workspaces : List Workspace) :
    (App.withWorkspaces m now scripts config history projectName projectPath runner
      workspaces).SelInv := by
  unfold App.withWorkspaces
  exact selInv_updateVisibleScripts m now _

theorem selInv_moveUp (a : App) (h : a.SelInv) : (a.moveUp).SelInv := by
  unfold App.SelInv at h
  simp only [App.moveUp]
  split_ifs with h1 h2 h3
  · exact h
  · unfold App.SelInv
    dsimp only
    omega
  · exact h
  · exact h

theorem selInv_moveDown (a : App) (h : a.SelInv) : (a.moveDown).SelInv := by
  unfold App.SelInv at h
  simp only [App.moveDown]
  split_ifs with h1 h2 h3
  · exact h
  · unfold App.SelInv
    dsimp only
    omega
  · unfold App.SelInv
    dsimp only
    omega
  · exact h

theorem selInv_moveLeft (a : App) (h : a.SelInv) : (a.moveLeft).SelInv := by
  unfold App.SelInv at h
  simp only [App.moveLeft]
  split_ifs with h1
  · unfold App.SelInv
    dsimp only
    omega
  · exact h

theorem selInv_moveRight (a : App) (h : a.SelInv) : (a.moveRight).SelInv := by
  unfold App.SelInv at h
  simp only [App.moveRight]
  split_ifs with h1
  · unfold App.SelInv
    dsimp only
    omega
  · exact h

theorem selInv_moveToFirst (a : App) : (a.moveToFirst).SelInv := by
  unfold App.moveToFirst App.SelInv
  dsimp only
  omega

theorem selInv_moveToLast (a : App) : (a.moveToLast).SelInv := by
  unfold App.moveToLast App.SelInv
  dsimp only
  omega

theorem selInv_selectByNumber (a : App) (num : Nat) (h : a.SelInv) :
    (a.selectByNumber num).SelInv := by
  unfold App.SelInv at h
  simp only [App.selectByNumber]
  split_ifs with h1
  · unfold App.SelInv
    dsimp only
    omega
  · exact h

theorem selInv_quit (a : App) (h : a.SelInv) : (a.quit).SelInv := selInv_same a _ h rfl rfl

theorem selInv_setMode (a : App) (mo : AppMode) (h : a.SelInv) : (a.setMode mo).SelInv :=
  selInv_same a _ h rfl rfl

theorem selInv_updateColumns (a : App) (w : Nat) (h : a.SelInv) :
    (a.updateColumns w).SelInv := selInv_same a _ h rfl rfl

theorem selInv_toggleHelp (a : App) (h : a.SelInv) : (a.toggleHelp).SelInv := by
  refine selInv_same a _ h ?_ ?_ <;> (unfold App.toggleHelp; split <;> rfl)

theorem selInv_toggleMultiSelect (a : App) (h : a.SelInv) : (a.toggleMultiSelect).SelInv := by
  refine selInv_same a _ h ?_ ?_ <;> (unfold App.toggleMultiSelect; split <;> rfl)

theorem selInv_enterArgsMode (a : App) (h : a.SelInv) : (a.enterArgsMode).SelInv := by
  refine selInv_same a _ h ?_ ?_ <;> (unfold App.enterArgsMode; split <;> rfl)

theorem selInv_toggleCurrentSelection (a : App) (h : a.SelInv) :
    (a.toggleCurrentSelection).SelInv := by
  refine selInv_same a _ h ?_ ?_ <;>
    (unfold App.toggleCurrentSelection; split <;> (try split) <;> rfl)

theorem selInv_backToWorkspaceSelect (a : App) (h : a.SelInv) :
    (a.backToWorkspaceSelect).SelInv := by
  refine selInv_same a _ h ?_ ?_ <;> (unfold App.backToWorkspaceSelect; split <;> rfl)

theorem selInv_workspaceMoveUp (a : App) (h : a.SelInv) : (a.workspaceMoveUp).SelInv := by
  refine selInv_same a _ h ?_ ?_ <;> (unfold App.workspaceMoveUp; split <;> rfl)

theorem selInv_workspaceMoveDown (a : App) (h : a.SelInv) : (a.workspaceMoveDown).SelInv := by
  refine selInv_same a _ h ?_ ?_ <;> (unfold App.workspaceMoveDown; split <;> rfl)

theorem selInv_workspaceMoveLeft (a : App) (h : a.SelInv) : (a.workspaceMoveLeft).SelInv := by
  refine selInv_same a _ h ?_ ?_ <;> (unfold App.workspaceMoveLeft; split <;> rfl)

theorem selInv_workspaceMoveRight (a : App) (h : a.SelInv) :
    (a.workspaceMoveRight).SelInv := by
  refine selInv_same a _ h ?_ ?_ <;> (unfold App.workspaceMoveRight; split <;> rfl)

theorem selInv_runSelectedApp (a : App) (h : a.SelInv) : (a.runSelectedApp).SelInv := by
  refine selInv_same a _ h ?_ ?_ <;>
    (unfold App.runSelectedApp App.runSelected; split <;> rfl)

theorem selInv_runWithArgs (a : App) (args : Str) (h : a.SelInv) :
    (a.runWithArgs args).SelInv := by
  refine selInv_same a _ h ?_ ?_ <;> (unfold App.runWithArgs; split <;> rfl)

theorem selInv_runMultiSelected (a : App) (h : a.SelInv) :
    ((a.runMultiSelected).2).SelInv := by
  refine selInv_same a _ h ?_ ?_ <;> (unfold App.runMultiSelected; split <;> rfl)

theorem selInv_runNumbered (a : App) (num : Nat) (h : a.SelInv) :
    (a.runNumbered num).SelInv := by
  unfold App.runNumbered
  split_ifs with h1
  · refine selInv_runSelectedApp _ ?_
    unfold App.SelInv at h ⊢
    dsimp only
    omega
  · exact h

theorem selInv_setFilter (m : Matcher) (now : Int) (a : App) (text : Str) :
    (a.setFilter m now text).SelInv := selInv_updateVisibleScripts m now _

theorem selInv_clearFilter (m : Matcher) (now : Int) (a : App) :
    (a.clearFilter m now).SelInv := selInv_updateVisibleScripts m now _

theorem selInv_cycleSortMode (m : Matcher) (now : Int) (a : App) :
    (a.cycleSortMode m now).SelInv := selInv_updateVisibleScripts m now _

theorem selInv_setSortMode (m : Matcher) (now : Int) (a : App) (mo : SortMode) :
    (a.setSortMode m now mo).SelInv := selInv_updateVisibleScripts m now _

theorem selInv_selectWorkspace (m : Matcher) (now : Int) (a : App) (index : Nat) :
    (a.selectWorkspace m now index).SelInv := selInv_updateVisibleScripts m now _

theorem selInv_selectCurrentWorkspace (m : Matcher) (now : Int) (a : App) :
    (a.selectCurrentWorkspace m now).SelInv := selInv_updateVisibleScripts m now _

theorem selInv_selectWorkspaceByNumber (m : Matcher) (now : Int) (a : App) (num : Nat)
    (h : a.SelInv) : (a.selectWorkspaceByNumber m now num).SelInv := by
  unfold App.selectWorkspaceByNumber
  split_ifs with h1
  · exact selInv_selectWorkspace m now a _
  · exact h

theorem selInv_handleNormalChar (m : Matcher) (now : Int) (a : App) (c : Char)
    (h : a.SelInv) : (handleNormalChar m now a c).SelInv := by
  unfold handleNormalChar
  by_cases h1 : c = 'k'
  · rw [if_pos h1]
    exact selInv_moveUp a h
  rw [if_neg h1]
  by_cases h2 : c = 'j'
  · rw [if_pos h2]
    exact selInv_moveDown a h
  rw [if_neg h2]
  by_cases h3 : c = 'h'
  · rw [if_pos h3]
    exact selInv_moveLeft a h
  rw [if_neg h3]
  by_cases h4 : c = 'l'
  · rw [if_pos h4]
    exact selInv_moveRight a h
  rw [if_neg h4]
  by_cases h5 : c = 'g'
  · rw [if_pos h5]
    exact selInv_moveToFirst a
  rw [if_neg h5]
  by_cases h6 : c = 'G'
  · rw [if_pos h6]
    exact selInv_moveToLast a
  rw [if_neg h6]
  by_cases h7 : c = 'o'
  · rw [if_pos h7]
    exact selInv_runSelectedApp a h
  rw [if_neg h7]
  by_cases h8 : c.isDigit = true ∧ c ≠ '0'
  · rw [if_pos h8]
    exact selInv_runNumbered a _ h
  rw [if_neg h8]
  by_cases h9 : c = '/'
  · rw [if_pos h9]
    exact selInv_setMode a _ h
  rw [if_neg h9]
  by_cases h10 : c = 's'
  · rw [if_pos h10]
    exact selInv_cycleSortMode m now a
  rw [if_neg h10]
  by_cases h11 : c = 'a'
  · rw [if_pos h11]
    exact selInv_enterArgsMode a h
  rw [if_neg h11]
  by_cases h12 : c = 'm'
  · rw [if_pos h12]
    exact selInv_toggleMultiSelect a h
  rw [if_neg h12]
  by_cases h13 : c = '?'
  · rw [if_pos h13]
    exact selInv_toggleHelp a h
  rw [if_neg h13]
  by_cases h14 : c = 'q'
  · rw [if_pos h14]
    exact selInv_quit a h
  rw [if_neg h14]
  by_cases h15 : c = 'w' ∧ a.isMonorepo = true
  · rw [if_pos h15]
    exact selInv_backToWorkspaceSelect a h
  rw [if_neg h15]
  exact h

theorem selInv_handleWorkspaceChar (m : Matcher) (now : Int) (a : App) (c : Char)
    (h : a.SelInv) : (handleWorkspaceChar m now a c).SelInv := by
  unfold handleWorkspaceChar
  by_cases h1 : c = 'k'
  · rw [if_pos h1]
    exact selInv_workspaceMoveUp a h
  rw [if_neg h1]
  by_cases h2 : c = 'j'
  · rw [if_pos h2]
    exact selInv_workspaceMoveDown a h
  rw [if_neg h2]
  by_cases h3 : c = 'h'
  · rw [if_pos h3]
    exact selInv_workspaceMoveLeft a h
  rw [if_neg h3]
  by_cases h4 : c = 'l'
  · rw [if_pos h4]
    exact selInv_workspaceMoveRight a h
  rw [if_neg h4]
  by_cases h5 : c.isDigit = true ∧ c ≠ '0'
  · rw [if_pos h5]
    exact selInv_selectWorkspaceByNumber m now a _ h
  rw [if_neg h5]
  by_cases h6 : c = '?'
  · rw [if_pos h6]
    exact selInv_toggleHelp a h
  rw [if_neg h6]
  by_cases h7 : c = 'q'
  · rw [if_pos h7]
    exact selInv_quit a h
  rw [if_neg h7]
  exact h

theorem selInv_handleMultiselectChar (a : App) (sel : List Nat) (c : Char)
    (h : a.SelInv) : (handleMultiselectChar a sel c).SelInv := by
  unfold handleMultiselectChar
  by_cases h1 : c = ' '
  · rw [if_pos h1]
    exact selInv_toggleCurrentSelection a h
  rw [if_neg h1]
  by_cases h2 : c = 'a'
  · rw [if_pos h2]
    exact selInv_setMode a _ h
  rw [if_neg h2]
  by_cases h3 : c = 'n'
  · rw [if_pos h3]
    exact selInv_setMode a _ h
  rw [if_neg h3]
  by_cases h4 : c = 'k'
  · rw [if_pos h4]
    exact selInv_moveUp a h
  rw [if_neg h4]
  by_cases h5 : c = 'j'
  · rw [if_pos h5]
    exact selInv_moveDown a h
  rw [if_neg h5]
  by_cases h6 : c = 'h'
  · rw [if_pos h6]
    exact selInv_moveLeft a h
  rw [if_neg h6]
  by_cases h7 : c = 'l'
  · rw [if_pos h7]
    exact selInv_moveRight a h
  rw [if_neg h7]
  by_cases h8 : c = 'g'
  · rw [if_pos h8]
    exact selInv_moveToFirst a
  rw [if_neg h8]
  by_cases h9 : c = 'G'
  · rw [if_pos h9]
    exact selInv_moveToLast a
  rw [if_neg h9]
  exact h

theorem selInv_handleNormalMode (m : Matcher) (now : Int) (a : App) (key : KeyEvent)
    (h : a.SelInv) : (handleNormalMode m now a key).SelInv := by
  unfold handleNormalMode
  split
  · exact selInv_moveUp a h
  · exact selInv_moveDown a h
  · exact selInv_moveLeft a h
  · exact selInv_moveRight a h
  · exact selInv_moveToFirst a
  · exact selInv_moveToLast a
  · exact selInv_runSelectedApp a h
  · exact selInv_handleNormalChar m now a _ h
  · exact h

theorem selInv_handleWorkspaceSelectMode (m : Matcher) (now : Int) (a : App)
    (key : KeyEvent) (h : a.SelInv) : (handleWorkspaceSelectMode m now a key).SelInv := by
  unfold handleWorkspaceSelectMode
  split
  · exact selInv_workspaceMoveUp a h
  · exact selInv_workspaceMoveDown a h
  · exact selInv_workspaceMoveLeft a h
  · exact selInv_workspaceMoveRight a h
  · exact selInv_selectCurrentWorkspace m now a
  · exact selInv_quit a h
  · exact selInv_handleWorkspaceChar m now a _ h
  · exact h

theorem selInv_handleFilterMode (m : Matcher) (now : Int) (a : App) (key : KeyEvent)
    (q : Str) (h : a.SelInv) : (handleFilterMode m now a key q).SelInv := by
  unfold handleFilterMode
  split
  · exact selInv_setMode _ _ (selInv_clearFilter m now a)
  · exact selInv_runSelectedApp a h
  · dsimp only
    split
    · exact selInv_setMode _ _ (selInv_clearFilter m now a)
    · exact selInv_setFilter m now a _
  · exact selInv_moveUp a h
  · exact selInv_moveDown a h
  · exact selInv_moveLeft a h
  · exact selInv_moveRight a h
  · split
    · exact selInv_runNumbered a _ h
    · exact selInv_setFilter m now a _
  · exact h

theorem selInv_handleMultiselectMode (a : App) (key : KeyEvent) (sel : List Nat)
    (h : a.SelInv) : (handleMultiselectMode a key sel).SelInv := by
  unfold handleMultiselectMode
  split
  · exact selInv_setMode a _ h
  · exact selInv_runMultiSelected a h
  · exact selInv_moveUp a h
  · exact selInv_moveDown a h
  · exact selInv_moveLeft a h
  · exact selInv_moveRight a h
  · exact selInv_moveToFirst a
  · exact selInv_moveToLast a
  · exact selInv_handleMultiselectChar a _ _ h
  · exact h

theorem selInv_handleArgsMode (m : Matcher) (now : Int) (a : App) (key : KeyEvent)
    (i : Nat) (inp : Str) (h : a.SelInv) : (handleArgsMode m now a key i inp).SelInv := by
  unfold handleArgsMode
  cases key.code with
  | Char c => exact selInv_setMode a _ h
  | Esc => exact selInv_setMode a _ h
  | Enter => exact selInv_runWithArgs a _ h
  | Backspace => exact selInv_setMode a _ h
  | Up => exact h
  | Down => exact h
  | Left => exact h
  | Right => exact h
  | Home => exact h
  | End => exact h
  | Tab => exact h

theorem selInv_handleKey (m : Matcher) (now : Int) (a : App) (key : KeyEvent)
    (h : a.SelInv) : (handleKey m now a key).SelInv := by
  unfold handleKey
  split
  · exact selInv_quit a h
  · split
    · exact selInv_handleNormalMode m now a key h
    · exact selInv_handleFilterMode m now a key _ h
    · exact selInv_setMode a _ h
    · exact selInv_setMode a _ h
    · exact selInv_handleMultiselectMode a key _ h
    · exact selInv_handleArgsMode m now a key _ _ h
    · exact selInv_handleWorkspaceSelectMode m now a key h

theorem selInv_handleEvent (m : Matcher) (now : Int) (a : App) (e : TermEvent)
    (h : a.SelInv) : (handleEvent m now a e).SelInv := by
  unfold handleEvent
  cases e with
  | Key key => exact selInv_handleKey m now a key h
  | Resize w ht => exact selInv_updateColumns a w h
  | FocusChange => exact h

theorem reachable_selInv (m : Matcher) (a : App) (h : Reachable m a) : a.SelInv := by
  induction h with
  | start now scripts config history projectName projectPath runner workspaces =>
    exact selInv_withWorkspaces m now scripts config history projectName projectPath
      runner workspaces
  | step b e now _ ih => exact selInv_handleEvent m now b e ih

/-- Claim C2: on every reachable state the selection cursor satisfies
`0 ≤ selected ≤ max(0, len(visible_indices)-1)` after any handled terminal
event; with an empty visible list the cursor is 0 and every motion operation
is a no-op. -/
theorem claim2_selection_invariant (m : Matcher) (now : Int) (a : App) (e : TermEvent)
    (h : Reachable m a) :
    (handleEvent m now a e).SelInv
    ∧ (a.visibleIndices = [] →
        a.selected = 0 ∧ a.moveUp = a ∧ a.moveDown = a ∧ a.moveLeft = a ∧
        a.moveRight = a ∧ a.moveToFirst = a ∧ a.moveToLast = a ∧
        ∀ num, a.selectByNumber num = a) := by
  have hinv := reachable_selInv m a h
  refine ⟨selInv_handleEvent m now a e hinv, ?_⟩
  intro hemp
  have hsel : a.selected = 0 := by
    unfold App.SelInv at hinv
    rw [hemp] at hinv
    simpa using hinv
  refine ⟨hsel, ?_, ?_, ?_, ?_, ?_, ?_, ?_⟩
  · unfold App.moveUp
    rw [if_pos (Or.inl hemp)]
  · unfold App.moveDown
    rw [if_pos (Or.inl hemp)]
  · unfold App.moveLeft
    rw [if_neg (by simp [hsel])]
  · unfold App.moveRight
    rw [if_neg (by simp [hemp, hsel])]
  · unfold App.moveToFirst
    rw [← hsel]
  · unfold App.moveToLast
    have hlen : a.visibleIndices.length - 1 = a.selected := by
      rw [hemp, hsel]
      rfl
    rw [hlen]
  · intro num
    unfold App.selectByNumber
    rw [if_neg (by rw [hemp]; rintro ⟨h1, h2⟩; simp at h2; omega)]

theorem claim2_witness :
    (handleEvent noMatcher 0 c2Start (TermEvent.Key ⟨KeyCode.Down, KeyModifiers.plain⟩)).SelInv
    ∧ c2Start.selected = 0 ∧ c2Start.moveUp = c2Start := by
  have H := claim2_selection_invariant noMatcher 0 c2Start
    (TermEvent.Key ⟨KeyCode.Down, KeyModifiers.plain⟩)
    (Reachable.start 0 [] ⟨SortMode.Recent, true⟩ ⟨1, []⟩ [] [] Runner.Npm [])
  have hemp : c2Start.visibleIndices = [] := by decide
  exact ⟨H.1, (H.2 hemp).1, (H.2 hemp).2.1⟩
